import Mathlib

/-!
# Gophermart: order reconciliation, balance ledger and order-number validation

A shallow embedding of the Go packages `internal/utils`, `internal/storage`
(`DatabaseStorage`) and `internal/service` (`BalanceService`, `OrderProcessor`).

Modelling conventions

* Monetary amounts (`float64` in Go) are rationals.  A value assigned to one of the
  `DECIMAL(10, 2)` columns `balances.current`, `balances.withdrawn` and `withdrawals.sum`
  is rounded to two decimals (`roundCents`), and the statement fails when the rounded
  value does not fit the column (`fitsDecimal`).  The column `orders.accrual` is kept as
  the amount passed to `UpdateOrderStatus`.
* The relational store is a record of row lists.  Every storage method takes a `Fault`
  telling which database round trip of the call, if any, fails with a driver error; a
  failed transaction is rolled back, so it leaves the rows as they were.
* The columns `id`, `uploaded_at` and `processed_at` are filled in by the database and
  are not part of the rows of the model.
* Wall-clock time is an integer number of nanoseconds.
-/

namespace Gophermart

/-! ## internal/utils -/

/-- Value added to the checksum by the byte `c` at index `i` (body of the loop of
`ValidateLuhn`). -/
def luhnDigit (parity i : Nat) (c : Char) : Nat :=
  let digit := c.toNat - '0'.toNat
  if i % 2 = parity then
    let digit := digit * 2
    if digit > 9 then digit - 9 else digit
  else digit

/-- The loop `for i := 0; i < nDigits; i++` of `ValidateLuhn`, started at index `i` with
the bytes that are still to be read and the running `sum`. -/
def luhnLoop (parity : Nat) : Nat → List Char → Nat → Nat
  | _, [], sum => sum
  | i, c :: cs, sum => luhnLoop parity (i + 1) cs (sum + luhnDigit parity i c)

/-- The regular expression `^\d+$` of `ValidateLuhn`: one or more ASCII decimal digits and
nothing else (in Go `\d` is ASCII only and `$` matches at the end of the text only). -/
def matchDigits (number : String) : Bool :=
  !number.data.isEmpty && number.data.all Char.isDigit

/-- The function `utils.ValidateLuhn`. -/
def ValidateLuhn (number : String) : Bool :=
  if !matchDigits number then false
  else
    let nDigits := number.data.length
    let parity := nDigits % 2
    luhnLoop parity 0 number.data 0 % 10 == 0

/-- Reference Luhn sum over the digits read from the right: `fromRight` is the distance
of the head digit from the rightmost one; digits at odd distance (the second-to-last,
the fourth-to-last, ...) are doubled, and 9 is subtracted from a doubled value above 9. -/
def luhnRefSum : Nat → List Nat → Nat
  | _, [] => 0
  | fromRight, d :: ds =>
    (if fromRight % 2 = 1 then (if d * 2 > 9 then d * 2 - 9 else d * 2) else d)
      + luhnRefSum (fromRight + 1) ds

/-- Reference Luhn checksum of a digit string, following the words of the specification:
double every second digit counting from the right starting with the second-to-last,
subtract 9 from doubled values above 9, and require the digit sum to be divisible
by 10. -/
def luhnReference (number : String) : Bool :=
  luhnRefSum 0 (number.data.reverse.map (fun c => c.toNat - 48)) % 10 == 0

/-! ## Errors -/

/-- Go `error` values that the modelled code creates, compares or passes on. -/
inductive GoError where
  /-- A sentinel of package `storage` made with `errors.New`, named by its message. -/
  | storageErr (msg : String)
  /-- The sentinel `sql.ErrNoRows`. -/
  | sqlErrNoRows
  /-- A value `apperrors.AppError{Status, Message}`. -/
  | appError (status : Nat) (message : String)
  /-- A failure reported by the database driver. -/
  | driver (roundTrip : Nat)
  /-- A value `*accrual.RateLimitError` with its `RetryAfter` in nanoseconds. -/
  | rateLimit (retryAfter : Nat)
  /-- An error made with `fmt.Errorf` without `%w`, or a transport error. -/
  | errorf (msg : String)
  /-- An error made with `fmt.Errorf("msg: %w", inner)`. -/
  | wrapf (msg : String) (inner : GoError)
  deriving DecidableEq, Repr

namespace storage

def ErrInsufficientFunds : GoError := GoError.storageErr "insufficient funds"

end storage

namespace apperrors

def ErrInvalidOrder : GoError :=
  GoError.appError 422 "Invalid order number: Luhn algorithm check failed"

def ErrOrderExistsForUser : GoError :=
  GoError.appError 200 "order already exists for this user"

def ErrOrderExistsForOther : GoError :=
  GoError.appError 409 "order already uploaded by another user"

def ErrInsufficientFunds : GoError := GoError.appError 402 "insufficient funds"

def ErrInvalidWithdraw : GoError := GoError.appError 422 "invalid withdraw amount"

end apperrors

/-- The function `errors.Is`: `target` is found somewhere along the `%w` chain of `err`. -/
def errorsIs : GoError → GoError → Bool
  | GoError.wrapf msg inner, target =>
    decide (GoError.wrapf msg inner = target) || errorsIs inner target
  | err, target => decide (err = target)

/-! ## internal/models -/

abbrev OrderStatus := String

def StatusRegistered : OrderStatus := "NEW"
def StatusProcessing : OrderStatus := "PROCESSING"
def StatusInvalid : OrderStatus := "INVALID"
def StatusProcessed : OrderStatus := "PROCESSED"

/-- The struct `models.AccrualResponse`. -/
structure AccrualResponse where
  Order : String
  Status : OrderStatus
  Accrual : ℚ
  deriving DecidableEq, Repr

/-- The struct `models.Order`, a row of table `orders`; `Accrual` is a `sql.NullFloat64`. -/
structure Order where
  Number : String
  UserID : Int
  Status : OrderStatus
  Accrual : Option ℚ
  deriving DecidableEq, Repr

/-! ## internal/storage: the tables -/

/-- A row of table `balances` (`user_id` is its primary key). -/
structure BalanceRow where
  user_id : Int
  current : ℚ
  withdrawn : ℚ
  deriving DecidableEq, Repr

/-- A row of table `withdrawals`. -/
structure WithdrawalRow where
  user_id : Int
  order_number : String
  sum : ℚ
  deriving DecidableEq, Repr

/-- The database behind `DatabaseStorage`. -/
structure DB where
  orders : List Order
  balances : List BalanceRow
  withdrawals : List WithdrawalRow
  deriving DecidableEq, Repr

/-- Which database round trip of a storage call fails (counted from 0 in the order in
which the method issues them), `none` when all of them succeed. -/
abbrev Fault := Option Nat

/-- Round trip `k` of the call fails. -/
def failsAt (f : Fault) (k : Nat) : Bool := f == some k

/-- The query `SELECT current FROM balances WHERE user_id = $1 FOR UPDATE`. -/
def selectBalance (db : DB) (userID : Int) : Option BalanceRow :=
  db.balances.find? (fun r => r.user_id == userID)

/-- Assignment of a value to a `DECIMAL(10, 2)` column (`balances.current`,
`balances.withdrawn`, `withdrawals.sum`): PostgreSQL rounds the value to two decimals,
ties away from zero. -/
def roundCents (x : ℚ) : ℚ :=
  if 0 ≤ x then ((⌊x * 100 + 1 / 2⌋ : ℤ) : ℚ) / 100
  else -(((⌊-x * 100 + 1 / 2⌋ : ℤ) : ℚ) / 100)

/-- The rounded value fits a `DECIMAL(10, 2)` column, which holds at most eight digits
before the decimal point; a statement assigning a value that does not fit fails with
`numeric field overflow`. -/
def fitsDecimal (x : ℚ) : Bool :=
  decide (-100000000 < roundCents x ∧ roundCents x < 100000000)

/-- The amount is a whole number of hundredths, as every value held in a
`DECIMAL(10, 2)` column is. -/
def isCents (x : ℚ) : Prop := ∃ k : ℤ, x = (k : ℚ) / 100

/-- The statement `UPDATE balances SET current = current + $1 WHERE user_id = $2`: the
new value is rounded on assignment to the `DECIMAL(10, 2)` column. -/
def creditRows (rows : List BalanceRow) (userID : Int) (delta : ℚ) : List BalanceRow :=
  rows.map (fun r =>
    if r.user_id == userID then { r with current := roundCents (r.current + delta) } else r)

/-- Every value that `creditRows` assigns fits its column. -/
def creditFits (rows : List BalanceRow) (userID : Int) (delta : ℚ) : Bool :=
  rows.all (fun r => !(r.user_id == userID) || fitsDecimal (r.current + delta))

/-- The statement
`UPDATE balances SET current = current - $1, withdrawn = withdrawn + $1 WHERE user_id = $2`:
both new values are rounded on assignment to their `DECIMAL(10, 2)` columns. -/
def debitRows (rows : List BalanceRow) (userID : Int) (sum : ℚ) : List BalanceRow :=
  rows.map (fun r =>
    if r.user_id == userID then
      { r with
        current := roundCents (r.current - sum), withdrawn := roundCents (r.withdrawn + sum) }
    else r)

/-- Every value that `debitRows` assigns fits its column. -/
def debitFits (rows : List BalanceRow) (userID : Int) (sum : ℚ) : Bool :=
  rows.all (fun r =>
    !(r.user_id == userID) || (fitsDecimal (r.current - sum) && fitsDecimal (r.withdrawn + sum)))

/-- The method `DatabaseStorage.UpdateBalance`.  Round trips: 0 `BeginTx`, 1 `SELECT ... FOR
UPDATE`, 2 `UPDATE`, 3 `Commit`.  The `UPDATE` also fails when a new value does not fit
its column. -/
def UpdateBalance (db : DB) (userID : Int) (delta : ℚ) (f : Fault) : Option GoError × DB :=
  if failsAt f 0 then (some (GoError.driver 0), db)
  else if failsAt f 1 then (some (GoError.driver 1), db)
  else
    match selectBalance db userID with
    | none => (some GoError.sqlErrNoRows, db)
    | some row =>
      if delta < 0 ∧ row.current + delta < 0 then (some storage.ErrInsufficientFunds, db)
      else if failsAt f 2 then (some (GoError.driver 2), db)
      else if !creditFits db.balances userID delta then (some (GoError.driver 2), db)
      else if failsAt f 3 then (some (GoError.driver 3), db)
      else (none, { db with balances := creditRows db.balances userID delta })

/-- The method `DatabaseStorage.CreateWithdrawal`.  Round trips: 0 `BeginTx`, 1 `SELECT ... FOR
UPDATE`, 2 `INSERT INTO withdrawals`, 3 `UPDATE balances`, 4 `Commit`.  The `INSERT` and
the `UPDATE` also fail when a value does not fit its column; the record holds the sum as
rounded on assignment to `withdrawals.sum`. -/
def CreateWithdrawal (db : DB) (userID : Int) (orderNumber : String) (sum : ℚ) (f : Fault) :
    Option GoError × DB :=
  if failsAt f 0 then (some (GoError.driver 0), db)
  else if failsAt f 1 then (some (GoError.driver 1), db)
  else
    match selectBalance db userID with
    | none => (some GoError.sqlErrNoRows, db)
    | some row =>
      if row.current < sum then (some storage.ErrInsufficientFunds, db)
      else if failsAt f 2 then (some (GoError.driver 2), db)
      else if !fitsDecimal sum then (some (GoError.driver 2), db)
      else if failsAt f 3 then (some (GoError.driver 3), db)
      else if !debitFits db.balances userID sum then (some (GoError.driver 3), db)
      else if failsAt f 4 then (some (GoError.driver 4), db)
      else
        (none,
          { db with
            withdrawals := db.withdrawals ++ [WithdrawalRow.mk userID orderNumber (roundCents sum)]
            balances := debitRows db.balances userID sum })

/-- The statement `UPDATE orders SET status = $1, accrual = $2 WHERE number = $3` on one
row. -/
def setStatus (number : String) (status : OrderStatus) (accrualValue : Option ℚ)
    (o : Order) : Order :=
  if o.Number == number then { o with Status := status, Accrual := accrualValue } else o

/-- The query `SELECT ... FROM orders WHERE number = $1`. -/
def selectOrder (db : DB) (number : String) : Option Order :=
  db.orders.find? (fun o => o.Number == number)

/-- The method `DatabaseStorage.GetOrder` (round trip 0 is its query); a number that is
not stored gives `(nil, nil)`. -/
def GetOrder (db : DB) (number : String) (f : Fault) : Except GoError (Option Order) :=
  if failsAt f 0 then Except.error (GoError.driver 0)
  else Except.ok (selectOrder db number)

/-- The method `DatabaseStorage.UpdateOrderStatus` (round trip 0 is its `UPDATE`): an
accrual that is not positive is stored as `NULL`, and no affected row gives
`sql.ErrNoRows`. -/
def UpdateOrderStatus (db : DB) (number : String) (status : OrderStatus) (accrual : ℚ)
    (f : Fault) : Option GoError × DB :=
  if failsAt f 0 then (some (GoError.driver 0), db)
  else
    let accrualValue : Option ℚ := if accrual > 0 then some accrual else none
    if db.orders.any (fun o => o.Number == number) then
      (none, { db with orders := db.orders.map (setStatus number status accrualValue) })
    else (some GoError.sqlErrNoRows, db)

/-! ## Calls made through the `storage.Storage` interface and to the accrual client -/

/-- One call made by the service layer, with what it returned. -/
inductive StoreCall where
  | UpdateOrderStatus (number : String) (status : OrderStatus) (accrual : ℚ)
      (err : Option GoError)
  | GetOrder (number : String) (failed : Bool)
  | UpdateBalance (userID : Int) (delta : ℚ) (err : Option GoError)
  | CreateWithdrawal (userID : Int) (orderNumber : String) (sum : ℚ) (err : Option GoError)
  | GetOrderAccrual (number : String) (time : Int)
  | Sleep (d : Int)
  deriving DecidableEq, Repr

/-- What a service method leaves behind: the returned `error` (`none` for `nil`), the
database, and the calls it made in order. -/
structure Result where
  err : Option GoError
  db : DB
  calls : List StoreCall
  deriving DecidableEq, Repr

/-! ## internal/service: BalanceService -/

/-- The method `BalanceService.Withdraw`; `f` is the fault of its `CreateWithdrawal`
call. -/
def Withdraw (db : DB) (userID : Int) (orderNumber : String) (amount : ℚ) (f : Fault) :
    Result :=
  if !ValidateLuhn orderNumber then Result.mk (some apperrors.ErrInvalidOrder) db []
  else if amount ≤ 0 then Result.mk (some apperrors.ErrInvalidWithdraw) db []
  else
    match CreateWithdrawal db userID orderNumber amount f with
    | (some err, db1) =>
      if errorsIs err storage.ErrInsufficientFunds then
        Result.mk (some apperrors.ErrInsufficientFunds) db1
          [StoreCall.CreateWithdrawal userID orderNumber amount (some err)]
      else
        Result.mk (some err) db1
          [StoreCall.CreateWithdrawal userID orderNumber amount (some err)]
    | (none, db1) =>
      Result.mk none db1 [StoreCall.CreateWithdrawal userID orderNumber amount none]

/-! ## internal/service: OrderProcessor -/

/-- What `accrualClient.GetOrderAccrual` hands back: an error, or a response pointer
that may be `nil`. -/
abbrev Settlement := Except GoError (Option AccrualResponse)

/-- Faults of the three store calls of one `checkOrder`. -/
structure CheckFaults where
  updateOrderStatus : Fault
  getOrder : Fault
  updateBalance : Fault
  deriving DecidableEq, Repr

/-- How a call of `checkOrder` ends: with a returned `error` (`none` for `nil`), or with
the nil-pointer panic of `order.UserID` when `GetOrder` gave `(nil, nil)`. -/
structure CheckResult where
  err : Option GoError
  panicked : Bool
  db : DB
  calls : List StoreCall
  deriving DecidableEq, Repr

/-- The method `OrderProcessor.checkOrder`, given what `GetOrderAccrual` returned. -/
def checkOrder (db : DB) (orderNumber : String) (settlement : Settlement)
    (fs : CheckFaults) : CheckResult :=
  match settlement with
  | Except.error err => CheckResult.mk (some err) false db []
  | Except.ok none => CheckResult.mk none false db []
  | Except.ok (some accrual) =>
    match UpdateOrderStatus db orderNumber accrual.Status accrual.Accrual
        fs.updateOrderStatus with
    | (some err, db1) =>
      CheckResult.mk (some (GoError.wrapf "failed to update order status" err)) false db1
        [StoreCall.UpdateOrderStatus orderNumber accrual.Status accrual.Accrual (some err)]
    | (none, db1) =>
      let c1 := StoreCall.UpdateOrderStatus orderNumber accrual.Status accrual.Accrual none
      if accrual.Status = StatusProcessed ∧ accrual.Accrual > 0 then
        match GetOrder db1 orderNumber fs.getOrder with
        | Except.error err =>
          CheckResult.mk (some (GoError.wrapf "failed to get order" err)) false db1
            [c1, StoreCall.GetOrder orderNumber true]
        | Except.ok none =>
          CheckResult.mk none true db1 [c1, StoreCall.GetOrder orderNumber false]
        | Except.ok (some order) =>
          match UpdateBalance db1 order.UserID accrual.Accrual fs.updateBalance with
          | (some err, db2) =>
            CheckResult.mk (some (GoError.wrapf "failed to update balance" err)) false db2
              [c1, StoreCall.GetOrder orderNumber false,
                StoreCall.UpdateBalance order.UserID accrual.Accrual (some err)]
          | (none, db2) =>
            CheckResult.mk none false db2
              [c1, StoreCall.GetOrder orderNumber false,
                StoreCall.UpdateBalance order.UserID accrual.Accrual none]
      else CheckResult.mk none false db1 [c1]

/-- The duration `time.Second` in nanoseconds. -/
def second : Int := 1000000000

/-- What the world does around one settlement poll of a tick: the answer of the accrual
client, the faults of the store calls of `checkOrder`, the fault of the `GetOrder` call
that `processOrders` makes afterwards, and the wall-clock time the poll takes. -/
structure PollEnv where
  settlement : Settlement
  faults : CheckFaults
  tickGetOrder : Fault
  took : Nat

/-- State of an `OrderProcessor` and of the goroutine running `processOrders`: the
database, the buffered channel `ordersChan`, the map `pending` (order number and time
of its last check), the wall clock, the number of settlement polls made so far, the
calls made so far, and whether the loop has returned or the process has panicked. -/
structure Processor where
  db : DB
  ordersChan : List String
  pending : List (String × Int)
  now : Int
  polls : Nat
  log : List StoreCall
  stopped : Bool
  crashed : Bool

/-- The assignment `pending[orderNumber] = t`. -/
def setPending : List (String × Int) → String → Int → List (String × Int)
  | [], k, t => [(k, t)]
  | (k1, t1) :: rest, k, t =>
    if k1 = k then (k, t) :: rest else (k1, t1) :: setPending rest k t

/-- The statement `delete(pending, orderNumber)`. -/
def deletePending (pending : List (String × Int)) (k : String) : List (String × Int) :=
  pending.filter (fun e => e.1 != k)

/-- The method `OrderProcessor.AddOrder`: a non-blocking send on a channel of capacity
100. -/
def AddOrder (p : Processor) (orderNumber : String) : Processor :=
  if p.ordersChan.length < 100 then { p with ordersChan := p.ordersChan ++ [orderNumber] }
  else p

/-- Body of the loop `for orderNumber, lastCheck := range pending` of `processOrders`
for one entry; `env` gives the surroundings of each settlement poll by its number. -/
def pollOne (env : Nat → PollEnv) (p : Processor) (orderNumber : String) (lastCheck : Int) :
    Processor :=
  if p.crashed then p
  else if p.now - lastCheck < 5 * second then p
  else
    let e := env p.polls
    let r := checkOrder p.db orderNumber e.settlement e.faults
    let p1 : Processor :=
      { p with
        db := r.db
        polls := p.polls + 1
        now := p.now + e.took
        log := p.log ++ StoreCall.GetOrderAccrual orderNumber p.now :: r.calls }
    if r.panicked then { p1 with crashed := true }
    else
      match r.err with
      | some (GoError.rateLimit _) =>
        { p1 with now := p1.now + second, log := p1.log ++ [StoreCall.Sleep second] }
      | some _ => p1
      | none =>
        match GetOrder p1.db orderNumber e.tickGetOrder with
        | Except.error _ =>
          { p1 with log := p1.log ++ [StoreCall.GetOrder orderNumber true] }
        | Except.ok none =>
          { p1 with log := p1.log ++ [StoreCall.GetOrder orderNumber false], crashed := true }
        | Except.ok (some order) =>
          if order.Status = StatusProcessed ∨ order.Status = StatusInvalid then
            { p1 with
              log := p1.log ++ [StoreCall.GetOrder orderNumber false]
              pending := deletePending p1.pending orderNumber }
          else
            { p1 with
              log := p1.log ++ [StoreCall.GetOrder orderNumber false]
              pending := setPending p1.pending orderNumber p1.now }

/-- The branch `case <-ticker.C` of `processOrders`: one pass over the entries of
`pending` (in the order of the list; the body touches only the entry it is visiting). -/
def tick (env : Nat → PollEnv) (p : Processor) : Processor :=
  if p.pending.length = 0 then p
  else p.pending.foldl (fun q e => pollOne env q e.1 e.2) p

/-- What can happen to a running processor: a caller adds an order, time passes, or the
`select` of `processOrders` takes one of its branches. -/
inductive Event where
  | addOrder (orderNumber : String)
  | elapse (d : Nat)
  | recv
  | tick
  | stop
  deriving DecidableEq, Repr

/-- One event.  Once the loop has returned or the process has panicked the branches of
`select` are gone; `recv` needs a queued order number. -/
def step (env : Nat → PollEnv) (p : Processor) : Event → Processor
  | Event.addOrder n => AddOrder p n
  | Event.elapse d => { p with now := p.now + d }
  | Event.recv =>
    if p.stopped ∨ p.crashed then p
    else
      match p.ordersChan with
      | [] => p
      | n :: rest => { p with ordersChan := rest, pending := setPending p.pending n p.now }
  | Event.tick => if p.stopped ∨ p.crashed then p else tick env p
  | Event.stop => { p with stopped := true }

/-- A run of the processor over a schedule of events. -/
def run (env : Nat → PollEnv) (p : Processor) (events : List Event) : Processor :=
  events.foldl (step env) p

/-- A freshly built processor (`NewOrderProcessor`, then `Start`) over a database, at
wall-clock time `now`. -/
def NewOrderProcessor (db : DB) (now : Int) : Processor :=
  Processor.mk db [] [] now 0 [] false false

/-- What is kept about an order `n` that is neither queued nor in `pending`: it stays
out of both, its stored row stays as in `p0`, and no accrual call for it joins the log
of `p0`. -/
def untracked (n : String) (p0 p : Processor) : Prop :=
  n ∉ p.ordersChan ∧ (∀ t, (n, t) ∉ p.pending) ∧ selectOrder p.db n = selectOrder p0.db n
    ∧ ∀ t, StoreCall.GetOrderAccrual n t ∈ p.log → StoreCall.GetOrderAccrual n t ∈ p0.log

/-! ## internal/accrual: Client -/

/-- What `httpClient.Get(url)` and the `io.ReadAll(resp.Body)` after it give: the request
fails (connection failure, timeout), or a response with a status code and a header
arrives and its body either cannot be read or is read in full. -/
inductive HttpOutcome where
  | getFailed (err : GoError)
  | readFailed (statusCode : Nat) (header : List (String × String)) (err : GoError)
  | response (statusCode : Nat) (header : List (String × String)) (body : String)

/-- What a call of `GetOrderAccrual` leaves behind: the returned pair (response pointer,
`error`) and the URLs it has requested. -/
structure AccrualCall where
  result : Settlement
  requests : List String

/-- The method `Client.GetOrderAccrual`.  The accrual service is the function `http`
from the requested URL to the outcome of the request, and `unmarshal` stands for
`json.Unmarshal` into a `models.AccrualResponse`. -/
def GetOrderAccrual (baseURL : String) (http : String → HttpOutcome)
    (unmarshal : String → Except GoError AccrualResponse) (orderNumber : String) :
    AccrualCall :=
  if orderNumber = "" then
    AccrualCall.mk (Except.error (GoError.errorf "order number cannot be empty")) []
  else
    let url := baseURL ++ "/api/orders/" ++ orderNumber
    match http url with
    | HttpOutcome.getFailed err =>
      AccrualCall.mk (Except.error (GoError.wrapf "request failed" err)) [url]
    | HttpOutcome.readFailed _ _ err =>
      AccrualCall.mk (Except.error (GoError.wrapf "failed to read response body" err)) [url]
    | HttpOutcome.response statusCode _ body =>
      if statusCode = 200 then
        match unmarshal body with
        | Except.error err =>
          AccrualCall.mk (Except.error (GoError.wrapf "failed to decode response" err)) [url]
        | Except.ok accrual => AccrualCall.mk (Except.ok (some accrual)) [url]
      else if statusCode = 204 then AccrualCall.mk (Except.ok none) [url]
      else if statusCode = 404 then
        AccrualCall.mk
          (Except.error (GoError.errorf
            ("check accrual system URL configuration: " ++ url ++ " returned 404")))
          [url]
      else
        AccrualCall.mk
          (Except.error (GoError.errorf
            ("unexpected status code " ++ toString statusCode ++ ": " ++ body)))
          [url]

/-! ## internal/utils: SplitString -/

/-- How a call of `SplitString` ends: it returns its parts (`[]` for the nil slice), it
panics on a slice expression that is out of range, or the model runs out of the fuel
given to its loop. -/
inductive SplitOutcome (α : Type) where
  | done (parts : List (List α))
  | panic
  | outOfFuel
  deriving DecidableEq, Repr

/-- The slice expression `s[lo:hi]` of Go: the bytes from `lo` up to `hi`, or `none`
(a run-time panic) unless `lo ≤ hi ≤ len(s)`. -/
def slice {α : Type} (s : List α) (lo hi : Nat) : Option (List α) :=
  if lo ≤ hi ∧ hi ≤ s.length then some ((s.drop lo).take (hi - lo)) else none

/-- The loop `for i := 0; i < len(s); i++` of `SplitString`, entered at its condition
with the present `i`, `start` and `result`.  A Go string is the list of its bytes, of
any type `α`.  After the body has run `i += len(sep) - 1`, the increment `i++` of the
loop leaves `i` larger by `len(sep)`. -/
def splitLoop {α : Type} [DecidableEq α] (s sep : List α) :
    Nat → Nat → Nat → List (List α) → SplitOutcome α
  | 0, _, _, _ => SplitOutcome.outOfFuel
  | fuel + 1, i, start, result =>
    if i < s.length then
      if i = s.length - 1 then
        match slice s start (i + 1) with
        | none => SplitOutcome.panic
        | some part =>
          splitLoop s sep fuel (i + 1 + sep.length) (i + 1 + sep.length) (result ++ [part])
      else
        match slice s i (i + sep.length) with
        | none => SplitOutcome.panic
        | some window =>
          if window = sep then
            match slice s start i with
            | none => SplitOutcome.panic
            | some part =>
              splitLoop s sep fuel (i + sep.length) (i + sep.length) (result ++ [part])
          else splitLoop s sep fuel (i + 1) start result
    else SplitOutcome.done result

/-- The function `utils.SplitString`, its loop being given one unit of fuel for each byte
of `s` and one for the last test of the loop condition. -/
def SplitString {α : Type} [DecidableEq α] (s sep : List α) : SplitOutcome α :=
  splitLoop s sep (s.length + 1) 0 0 []

/-- Reference split, following the words of the specification: the substrings of the
text between successive non-overlapping occurrences of `sep`, found from left to right.
`skip` counts the bytes of the occurrence just found that are still to be passed over,
and `current` is the substring collected since the last occurrence. -/
def standardSplit {α : Type} [DecidableEq α] (sep : List α) :
    Nat → List α → List α → List (List α)
  | _, [], current => [current]
  | skip + 1, _ :: rest, current => standardSplit sep skip rest current
  | 0, c :: rest, current =>
    if sep.isPrefixOf (c :: rest) then current :: standardSplit sep (sep.length - 1) rest []
    else standardSplit sep 0 rest (current ++ [c])

/-! ## internal/middleware: the auth cookie -/

/-- The function `isValidSignature`; `generateSignature` (HMAC-SHA256 of the data under
the secret key, in hexadecimal) is a parameter. -/
def isValidSignature (generateSignature : String → String) (data signature : String) : Bool :=
  generateSignature data == signature

/-- The string `value` that `SetAuthCookie` builds for a user id and hands to
`http.SetCookie` as `Cookie.Value`. -/
def authCookieValue (generateSignature : String → String) (userID : String) : String :=
  userID ++ ":" ++ generateSignature userID

/-- The function `validCookieValueByte` of `net/http`: the bytes that may stand in a
cookie value are those from 0x20 to 0x7e other than the double quote, the semicolon and
the backslash.  A character outside ASCII is a run of bytes above 0x7f, none of them
valid. -/
def validCookieValueByte (c : Char) : Bool :=
  decide (32 ≤ c.toNat ∧ c.toNat < 127 ∧ c.toNat ≠ 34 ∧ c.toNat ≠ 59 ∧ c.toNat ≠ 92)

/-- The function `sanitizeCookieValue` of `net/http`, which `http.SetCookie` applies to
`Cookie.Value` when it writes the `Set-Cookie` header: the bytes that are not valid are
dropped, and what is left is put in double quotes when it has a space or a comma. -/
def sanitizeCookieValue (v : String) : String :=
  let w := v.data.filter validCookieValueByte
  if w = [] then String.mk w
  else if w.any (fun c => c == ' ' || c == ',') then
    String.mk (Char.ofNat 34 :: w ++ [Char.ofNat 34])
  else String.mk w

/-- The function `parseCookieValue` of `net/http`, by which `Request.Cookie` (and
`Response.Cookies`) read the value of a cookie: double quotes around the value are
stripped, and a value with a byte that is not valid makes the cookie be skipped
(`none`). -/
def parseCookieValue (raw : String) : Option String :=
  let v :=
    if 1 < raw.data.length ∧ raw.data.head? = some (Char.ofNat 34)
        ∧ raw.data.getLast? = some (Char.ofNat 34) then
      raw.data.tail.dropLast
    else raw.data
  if v.all validCookieValueByte then some (String.mk v) else none

/-- The function `SetAuthCookie`: the value of the cookie `auth_token` in the `Set-Cookie`
header that `http.SetCookie` writes. -/
def SetAuthCookie (generateSignature : String → String) (userID : String) : String :=
  sanitizeCookieValue (authCookieValue generateSignature userID)

/-- The function `GetUserID` on the value of the cookie `auth_token` (`none` when the
request has no such cookie).  The result is `none` when `SplitString` does not return. -/
def GetUserID (generateSignature : String → String) (cookie : Option String) :
    Option String :=
  match cookie with
  | none => some ""
  | some value =>
    match SplitString value.data ":".data with
    | SplitOutcome.done [userID, signature] =>
      if !isValidSignature generateSignature (String.mk userID) (String.mk signature) then
        some ""
      else some (String.mk userID)
    | SplitOutcome.done _ => some ""
    | _ => none

/-! ## internal/storage: SaveOrder -/

/-- The method `DatabaseStorage.SaveOrder`.  Round trips: 0 the `SELECT user_id FROM
orders`, 1 the `INSERT INTO orders`.  Every row of the model has a `user_id`, so
`existingUserID.Valid` holds for a row that is found. -/
def SaveOrder (db : DB) (userID : Int) (number : String) (f : Fault) : Option GoError × DB :=
  if failsAt f 0 then
    (some (GoError.wrapf "failed to check existing order" (GoError.driver 0)), db)
  else
    match selectOrder db number with
    | some existing =>
      if existing.UserID = userID then (some apperrors.ErrOrderExistsForUser, db)
      else (some apperrors.ErrOrderExistsForOther, db)
    | none =>
      if failsAt f 1 then (some (GoError.wrapf "failed to save order" (GoError.driver 1)), db)
      else (none, { db with orders := db.orders ++ [Order.mk number userID StatusRegistered none] })

/-! ## internal/service: OrderService -/

/-- One call made by `SubmitOrder`, to the store or to the order processor. -/
inductive SubmitCall where
  | SaveOrder (userID : Int) (number : String) (err : Option GoError)
  | AddOrder (number : String)
  deriving DecidableEq, Repr

/-- What `SubmitOrder` leaves behind: the returned `error`, the processor with its
database and intake queue, and the calls made in order. -/
structure SubmitResult where
  err : Option GoError
  processor : Processor
  calls : List SubmitCall

/-- The method `OrderService.SubmitOrder`; `f` is the fault of its `SaveOrder` call. -/
def SubmitOrder (p : Processor) (userID : Int) (orderNumber : String) (f : Fault) :
    SubmitResult :=
  if !ValidateLuhn orderNumber then SubmitResult.mk (some apperrors.ErrInvalidOrder) p []
  else
    match SaveOrder p.db userID orderNumber f with
    | (some err, db1) =>
      if errorsIs err apperrors.ErrOrderExistsForUser then
        SubmitResult.mk (some apperrors.ErrOrderExistsForUser) { p with db := db1 }
          [SubmitCall.SaveOrder userID orderNumber (some err)]
      else if errorsIs err apperrors.ErrOrderExistsForOther then
        SubmitResult.mk (some apperrors.ErrOrderExistsForOther) { p with db := db1 }
          [SubmitCall.SaveOrder userID orderNumber (some err)]
      else
        SubmitResult.mk (some (GoError.wrapf "failed to save order" err)) { p with db := db1 }
          [SubmitCall.SaveOrder userID orderNumber (some err)]
    | (none, db1) =>
      SubmitResult.mk none (AddOrder { p with db := db1 } orderNumber)
        [SubmitCall.SaveOrder userID orderNumber none, SubmitCall.AddOrder orderNumber]

/-! ## Scenarios over the ledger -/

/-- One ledger operation with the fault of its database call: a direct `UpdateBalance`,
or a withdrawal through `BalanceService.Withdraw`. -/
inductive LedgerOp where
  | updateBalance (userID : Int) (delta : ℚ) (f : Fault)
  | withdraw (userID : Int) (orderNumber : String) (amount : ℚ) (f : Fault)

/-- The database after one ledger operation. -/
def applyLedgerOp (db : DB) : LedgerOp → DB
  | LedgerOp.updateBalance u delta f => (UpdateBalance db u delta f).2
  | LedgerOp.withdraw u n amount f => (Withdraw db u n amount f).db

/-- The database after a sequence of ledger operations. -/
def applyLedgerOps (db : DB) (ops : List LedgerOp) : DB :=
  ops.foldl applyLedgerOp db

/-- A credit (`UpdateBalance` with the given delta) or a debit (`CreateWithdrawal` with
the given reference and sum) against one user, on a database whose round trips all
succeed. -/
inductive Movement where
  | credit (delta : ℚ)
  | debit (orderNumber : String) (sum : ℚ)

/-- The database after one movement of user `u`. -/
def applyMovement (u : Int) (db : DB) : Movement → DB
  | Movement.credit delta => (UpdateBalance db u delta none).2
  | Movement.debit n sum => (CreateWithdrawal db u n sum none).2

/-- The database after a sequence of movements of user `u`. -/
def applyMovements (u : Int) (db : DB) (ms : List Movement) : DB :=
  ms.foldl (applyMovement u) db

/-- Sum of the credits of a sequence of movements. -/
def creditTotal : List Movement → ℚ
  | [] => 0
  | Movement.credit delta :: ms => delta + creditTotal ms
  | Movement.debit _ _ :: ms => creditTotal ms

/-- Sum of the debits of a sequence of movements of user `u` for which
`CreateWithdrawal` returns `nil`, the sequence being applied from `db` on. -/
def successfulDebitTotal (u : Int) : DB → List Movement → ℚ
  | _, [] => 0
  | db, Movement.credit delta :: ms =>
    successfulDebitTotal u (applyMovement u db (Movement.credit delta)) ms
  | db, Movement.debit n sum :: ms =>
    (if (CreateWithdrawal db u n sum none).1 = none then sum else 0)
      + successfulDebitTotal u (applyMovement u db (Movement.debit n sum)) ms

/-- Sum of the credits of a sequence of movements of user `u` for which `UpdateBalance`
returns `nil`, the sequence being applied from `db` on. -/
def successfulCreditTotal (u : Int) : DB → List Movement → ℚ
  | _, [] => 0
  | db, Movement.credit delta :: ms =>
    (if (UpdateBalance db u delta none).1 = none then delta else 0)
      + successfulCreditTotal u (applyMovement u db (Movement.credit delta)) ms
  | db, Movement.debit n sum :: ms =>
    successfulCreditTotal u (applyMovement u db (Movement.debit n sum)) ms

/-- Every credit and every debit of the sequence is a whole number of hundredths. -/
def centAmounts : List Movement → Prop
  | [] => True
  | Movement.credit delta :: ms => isCents delta ∧ centAmounts ms
  | Movement.debit _ sum :: ms => isCents sum ∧ centAmounts ms

/-- Every credit and every debit of the sequence has a positive amount. -/
def positiveAmounts : List Movement → Prop
  | [] => True
  | Movement.credit delta :: ms => 0 < delta ∧ positiveAmounts ms
  | Movement.debit _ sum :: ms => 0 < sum ∧ positiveAmounts ms

/-! ## Sample data -/

/-- A database with the single user 1, whose balance is `current` and `withdrawn`. -/
def singleUserDB (current withdrawn : ℚ) : DB :=
  DB.mk [] [BalanceRow.mk 1 current withdrawn] []

/-- The order 4561261212345467 of user 1, as `SaveOrder` stores it. -/
def sampleOrder : Order := Order.mk "4561261212345467" 1 StatusRegistered none

/-- A database with user 1, a zero balance, and the stored order `sampleOrder`. -/
def sampleDB : DB := DB.mk [sampleOrder] [BalanceRow.mk 1 0 0] []

/-- The settlement `PROCESSED` with reward 50 for the order of `sampleOrder`. -/
def processedResponse : AccrualResponse :=
  AccrualResponse.mk "4561261212345467" StatusProcessed 50

/-- Surroundings in which the accrual service always answers `processedResponse` and
every store call succeeds, except that the `GetOrder` call made by `processOrders` after
the first poll fails. -/
def doubleCreditEnv : Nat → PollEnv := fun k =>
  PollEnv.mk (Except.ok (some processedResponse)) (CheckFaults.mk none none none)
    (if k = 0 then some 0 else none) 0

/-- The order is added and received, becomes due after five seconds, and two ticks one
second apart follow. -/
def doubleCreditSchedule : List Event :=
  [Event.addOrder "4561261212345467", Event.recv, Event.elapse 5000000000, Event.tick,
    Event.elapse 1000000000, Event.tick]

/-- An accrual service that answers every request with HTTP 500 and an empty body. -/
def serverErrorHttp : String → HttpOutcome := fun _ => HttpOutcome.response 500 [] ""

/-- An accrual service that answers every request with HTTP 429, the header
`Retry-After: 60` and the text of `cmd/accrual`. -/
def tooManyRequestsHttp : String → HttpOutcome := fun _ =>
  HttpOutcome.response 429 [("Content-Type", "text/plain"), ("Retry-After", "60")]
    "No more than 20 requests per minute allowed"

/-- A decoder that rejects every body, as `json.Unmarshal` does for a body that is not
JSON. -/
def rejectingUnmarshal : String → Except GoError AccrualResponse := fun _ =>
  Except.error (GoError.errorf "unexpected end of JSON input")

/-- Surroundings in which every settlement check is what `GetOrderAccrual` returns for
order 4561261212345467 against `serverErrorHttp`, and every store call succeeds. -/
def serverErrorEnv : Nat → PollEnv := fun _ =>
  PollEnv.mk
    (GetOrderAccrual "http://accrual" serverErrorHttp rejectingUnmarshal
      "4561261212345467").result
    (CheckFaults.mk none none none) none 0

/-- The order is added and received, and the first tick at which it is due follows. -/
def firstPollSchedule : List Event :=
  [Event.addOrder "4561261212345467", Event.recv, Event.elapse 5000000000, Event.tick]

/-- The schedule `firstPollSchedule` followed by the next tick, one second later. -/
def nextTickSchedule : List Event :=
  firstPollSchedule ++ [Event.elapse 1000000000, Event.tick]

/-- A database with the stored orders 4561261212345467 and 79927398713 of user 1. -/
def twoOrdersDB : DB :=
  DB.mk [sampleOrder, Order.mk "79927398713" 1 StatusRegistered none] [BalanceRow.mk 1 0 0] []

/-- A processor whose working set holds the two orders of `twoOrdersDB`, both received
at time 0 and both due at the present time of five seconds. -/
def twoDueOrders : Processor :=
  Processor.mk twoOrdersDB [] [("4561261212345467", 0), ("79927398713", 0)] 5000000000 0 []
    false false

/-- An accrual service that answers every request with HTTP 204 and no body. -/
def noContentHttp : String → HttpOutcome := fun _ => HttpOutcome.response 204 [] ""

/-- Surroundings in which every settlement check is what `GetOrderAccrual` returns against
`noContentHttp`, first for order 4561261212345467 and then for order 79927398713, and
every store call succeeds. -/
def noContentEnv : Nat → PollEnv := fun k =>
  PollEnv.mk
    (GetOrderAccrual "http://accrual" noContentHttp rejectingUnmarshal
      (if k = 0 then "4561261212345467" else "79927398713")).result
    (CheckFaults.mk none none none) none 0

/-- Surroundings in which every settlement check is what `GetOrderAccrual` returns for
order 4561261212345467 against `noContentHttp`, and the `GetOrder` call made by
`processOrders` after each poll fails. -/
def noContentGetOrderFailsEnv : Nat → PollEnv := fun _ =>
  PollEnv.mk
    (GetOrderAccrual "http://accrual" noContentHttp rejectingUnmarshal
      "4561261212345467").result
    (CheckFaults.mk none none none) (some 0) 0

/-- The settlement `REGISTERED` for the order of `sampleOrder`, as `cmd/accrual` sends it
for an order it sees for the first time. -/
def registeredResponse : AccrualResponse :=
  AccrualResponse.mk "4561261212345467" "REGISTERED" 0

/-- A stand-in for `generateSignature` that gives data of different lengths different
signatures: the hexadecimal digit `a`, once more than the data has characters. -/
def lengthSignature : String → String := fun d =>
  String.mk (List.replicate (d.length + 1) 'a')

/-- A stand-in for `generateSignature` that gives every data the same 64 hexadecimal
digits. -/
def sampleSignature : String → String := fun _ =>
  "5f70bf18a086007016e948b04aed3b82103a36bea41755b6cddfaf10ace3c6ef"

/-- Surroundings in which the accrual service answers PROCESSING and every store call
succeeds. -/
def processingEnv : Nat → PollEnv := fun _ =>
  PollEnv.mk (Except.ok (some (AccrualResponse.mk "4561261212345467" StatusProcessing 0)))
    (CheckFaults.mk none none none) none 0

/-- A processor started anew over `sampleDB`, whose stored order 4561261212345467 has
status NEW, with ticks at five, ten and seventy seconds and no call of `AddOrder`. -/
def restartSchedule : List Event :=
  [Event.elapse 5000000000, Event.tick, Event.elapse 5000000000, Event.tick,
    Event.elapse 60000000000, Event.tick]

/-! ## Order-number validation: lemmas -/

theorem luhnLoop_acc (parity : Nat) (cs : List Char) (i sum : Nat) :
    luhnLoop parity i cs sum = sum + luhnLoop parity i cs 0 := by
  induction cs generalizing i sum with
  | nil => simp [luhnLoop]
  | cons c cs ih =>
    simp only [luhnLoop]
    rw [ih (i + 1) (sum + luhnDigit parity i c), ih (i + 1) (0 + luhnDigit parity i c)]
    omega

theorem luhnRefSum_snoc (ds : List Nat) (k d : Nat) :
    luhnRefSum k (ds ++ [d]) = luhnRefSum k ds +
      (if (k + ds.length) % 2 = 1 then (if d * 2 > 9 then d * 2 - 9 else d * 2) else d) := by
  induction ds generalizing k with
  | nil => simp [luhnRefSum]
  | cons x xs ih =>
    have e : k + 1 + xs.length = k + (xs.length + 1) := by omega
    show _ + luhnRefSum (k + 1) (xs ++ [d]) = _
    rw [ih (k + 1), e]
    simp only [luhnRefSum, List.length_cons]
    omega

theorem luhnLoop_eq_refSum (cs : List Char) (i : Nat) :
    luhnLoop ((i + cs.length) % 2) i cs 0
      = luhnRefSum 0 (cs.reverse.map (fun c => c.toNat - 48)) := by
  induction cs generalizing i with
  | nil => simp [luhnLoop, luhnRefSum]
  | cons c cs ih =>
    simp only [luhnLoop, List.reverse_cons, List.map_append, List.map_cons, List.map_nil,
      luhnRefSum_snoc, List.length_map, List.length_reverse, List.length_cons, Nat.zero_add]
    rw [luhnLoop_acc]
    have h := ih (i + 1)
    have e : i + 1 + cs.length = i + (cs.length + 1) := by omega
    rw [e] at h
    rw [h]
    have hc : '0'.toNat = 48 := by decide
    simp only [luhnDigit, hc]
    have p : (i % 2 = (i + (cs.length + 1)) % 2) ↔ (cs.length % 2 = 1) := by omega
    by_cases q : cs.length % 2 = 1
    · rw [if_pos (p.mpr q), if_pos q]; omega
    · rw [if_neg (fun h => q (p.mp h)), if_neg q]; omega

theorem char_isDigit_iff (c : Char) : c.isDigit = true ↔ 48 ≤ c.toNat ∧ c.toNat ≤ 57 := by
  simp only [Char.isDigit, Char.toNat, Bool.and_eq_true, decide_eq_true_eq, ge_iff_le]
  exact Iff.rfl

theorem matchDigits_iff (number : String) :
    matchDigits number = true ↔
      number.data ≠ [] ∧ ∀ c ∈ number.data, 48 ≤ c.toNat ∧ c.toNat ≤ 57 := by
  simp only [matchDigits, Bool.and_eq_true, Bool.not_eq_true', List.isEmpty_eq_false,
    List.all_eq_true, char_isDigit_iff]

/-! ## Order-number validation: claims -/

/-- C7: on every non-empty string of decimal digits `ValidateLuhn` gives the verdict of
the reference Luhn checksum (digits doubled from the second-to-last leftwards, 9
subtracted from doubled values above 9, sum divisible by 10); the numbers
4532015112830366 and 4561261212345467 are accepted, 4532015112830367 and 12345 are
rejected. -/
theorem ValidateLuhn_eq_luhnReference (number : String) (hne : number.data ≠ [])
    (hdigits : ∀ c ∈ number.data, 48 ≤ c.toNat ∧ c.toNat ≤ 57) :
    ValidateLuhn number = luhnReference number
      ∧ ValidateLuhn "4532015112830366" = true
      ∧ ValidateLuhn "4561261212345467" = true
      ∧ ValidateLuhn "4532015112830367" = false
      ∧ ValidateLuhn "12345" = false := by
  refine ⟨?_, by decide, by decide, by decide, by decide⟩
  have hm : matchDigits number = true := (matchDigits_iff number).mpr ⟨hne, hdigits⟩
  have h := luhnLoop_eq_refSum number.data 0
  simp only [Nat.zero_add] at h
  simp only [ValidateLuhn, hm, luhnReference, h, Bool.not_true, Bool.false_eq_true, if_false]

theorem ValidateLuhn_eq_luhnReference_witness :
    ("79927398713" : String).data ≠ []
      ∧ (∀ c ∈ ("79927398713" : String).data, 48 ≤ c.toNat ∧ c.toNat ≤ 57)
      ∧ ValidateLuhn "79927398713" = luhnReference "79927398713"
      ∧ luhnReference "79927398713" = true :=
  ⟨by decide, by decide,
    (ValidateLuhn_eq_luhnReference "79927398713" (by decide) (by decide)).1, by decide⟩

/-- C8: `ValidateLuhn` is a total function that returns false for the empty string and
for every string holding a character that is not an ASCII decimal digit, wherever the
character stands. -/
theorem ValidateLuhn_rejects_non_digits (number : String)
    (h : number = "" ∨ ∃ c ∈ number.data, ¬ (48 ≤ c.toNat ∧ c.toNat ≤ 57)) :
    ValidateLuhn number = false := by
  have hm : matchDigits number = false := by
    rw [Bool.eq_false_iff]
    intro hm
    obtain ⟨hne, hd⟩ := (matchDigits_iff number).mp hm
    rcases h with h | ⟨c, hc, hnd⟩
    · exact hne (by rw [h])
    · exact hnd (hd c hc)
  simp [ValidateLuhn, hm]

theorem ValidateLuhn_rejects_non_digits_witness :
    (∃ c ∈ ("4532015112830366 " : String).data, ¬ (48 ≤ c.toNat ∧ c.toNat ≤ 57))
      ∧ ValidateLuhn "4532015112830366 " = false
      ∧ ValidateLuhn "" = false
      ∧ ValidateLuhn "12345a" = false
      ∧ ValidateLuhn "-4532015112830366" = false :=
  ⟨⟨' ', by decide, by decide⟩,
    ValidateLuhn_rejects_non_digits "4532015112830366 " (Or.inr ⟨' ', by decide, by decide⟩),
    by decide, by decide, by decide⟩

/-! ## Balance ledger: lemmas -/

theorem selectBalance_user_id {db : DB} {u : Int} {row : BalanceRow}
    (h : selectBalance db u = some row) : row.user_id = u := by
  have h1 := List.find?_some h
  simpa using h1

theorem roundCents_nonneg {x : ℚ} (h : 0 ≤ x) : 0 ≤ roundCents x := by
  unfold roundCents
  rw [if_pos h]
  apply div_nonneg _ (by norm_num)
  have : (0 : ℤ) ≤ ⌊x * 100 + 1 / 2⌋ := Int.floor_nonneg.mpr (by positivity)
  exact_mod_cast this

theorem roundCents_nonpos {x : ℚ} (h : x < 0) : roundCents x ≤ 0 := by
  unfold roundCents
  rw [if_neg (not_le.mpr h)]
  have : (0 : ℤ) ≤ ⌊-x * 100 + 1 / 2⌋ := Int.floor_nonneg.mpr (by nlinarith)
  have h2 : (0 : ℚ) ≤ ((⌊-x * 100 + 1 / 2⌋ : ℤ) : ℚ) / 100 :=
    div_nonneg (by exact_mod_cast this) (by norm_num)
  linarith

/-- Rounding to two decimals keeps the order of amounts. -/
theorem roundCents_mono {x y : ℚ} (h : x ≤ y) : roundCents x ≤ roundCents y := by
  by_cases hx : 0 ≤ x
  · have hy : 0 ≤ y := le_trans hx h
    unfold roundCents
    rw [if_pos hx, if_pos hy]
    apply div_le_div_of_nonneg_right _ (by norm_num)
    have : ⌊x * 100 + 1 / 2⌋ ≤ ⌊y * 100 + 1 / 2⌋ := Int.floor_mono (by linarith)
    exact_mod_cast this
  · by_cases hy : 0 ≤ y
    · exact le_trans (roundCents_nonpos (not_le.mp hx)) (roundCents_nonneg hy)
    · unfold roundCents
      rw [if_neg hx, if_neg hy]
      apply neg_le_neg
      apply div_le_div_of_nonneg_right _ (by norm_num)
      have : ⌊-y * 100 + 1 / 2⌋ ≤ ⌊-x * 100 + 1 / 2⌋ := Int.floor_mono (by linarith)
      exact_mod_cast this

theorem floor_int_add_half (k : ℤ) : ⌊(k : ℚ) + 1 / 2⌋ = k := by
  rw [Int.floor_eq_iff]
  constructor <;> norm_num

/-- Rounding to two decimals leaves a whole number of hundredths as it is. -/
theorem roundCents_of_isCents {x : ℚ} (h : isCents x) : roundCents x = x := by
  obtain ⟨k, rfl⟩ := h
  unfold roundCents
  split_ifs with h0
  · have e : (k : ℚ) / 100 * 100 + 1 / 2 = (k : ℚ) + 1 / 2 := by ring
    rw [e, floor_int_add_half]
  · have e : -((k : ℚ) / 100) * 100 + 1 / 2 = ((-k : ℤ) : ℚ) + 1 / 2 := by push_cast; ring
    rw [e, floor_int_add_half]
    push_cast
    ring

theorem isCents_roundCents (x : ℚ) : isCents (roundCents x) := by
  unfold roundCents
  split_ifs
  · exact ⟨_, rfl⟩
  · exact ⟨-⌊-x * 100 + 1 / 2⌋, by push_cast; ring⟩

theorem isCents_add {x y : ℚ} (hx : isCents x) (hy : isCents y) : isCents (x + y) := by
  obtain ⟨a, rfl⟩ := hx
  obtain ⟨b, rfl⟩ := hy
  exact ⟨a + b, by push_cast; ring⟩

theorem isCents_sub {x y : ℚ} (hx : isCents x) (hy : isCents y) : isCents (x - y) := by
  obtain ⟨a, rfl⟩ := hx
  obtain ⟨b, rfl⟩ := hy
  exact ⟨a - b, by push_cast; ring⟩

theorem isCents_zero : isCents 0 := ⟨0, by norm_num⟩

theorem selectBalance_creditRows (db : DB) (u v : Int) (delta : ℚ) :
    selectBalance { db with balances := creditRows db.balances v delta } u
      = (selectBalance db u).map (fun r =>
          if r.user_id == v then { r with current := roundCents (r.current + delta) }
          else r) := by
  simp only [selectBalance, creditRows, List.find?_map]
  congr 1
  apply congrArg (fun q => List.find? q db.balances)
  funext r
  by_cases h : r.user_id = v <;> simp [h]

theorem selectBalance_debitRows (db : DB) (u v : Int) (sum : ℚ) (ws : List WithdrawalRow) :
    selectBalance { db with withdrawals := ws, balances := debitRows db.balances v sum } u
      = (selectBalance db u).map (fun r =>
          if r.user_id == v then
            { r with
              current := roundCents (r.current - sum),
              withdrawn := roundCents (r.withdrawn + sum) }
          else r) := by
  simp only [selectBalance, debitRows, List.find?_map]
  congr 1
  apply congrArg (fun q => List.find? q db.balances)
  funext r
  by_cases h : r.user_id = v <;> simp [h]

/-- The two ways `UpdateBalance` can end: rolled back, or committed with the credit
applied to a row that passes the sufficiency check, every new value fitting its column. -/
theorem UpdateBalance_cases (db : DB) (v : Int) (delta : ℚ) (f : Fault) :
    ((UpdateBalance db v delta f).1 ≠ none ∧ (UpdateBalance db v delta f).2 = db)
      ∨ ∃ row, selectBalance db v = some row ∧ ¬ (delta < 0 ∧ row.current + delta < 0)
          ∧ UpdateBalance db v delta f
              = (none, { db with balances := creditRows db.balances v delta }) := by
  unfold UpdateBalance
  by_cases h0 : failsAt f 0 = true
  · left; simp [h0]
  by_cases h1 : failsAt f 1 = true
  · left; simp [h0, h1]
  cases hs : selectBalance db v with
  | none => left; simp [h0, h1]
  | some row =>
    by_cases hi : delta < 0 ∧ row.current + delta < 0
    · left; simp [h0, h1, hi, storage.ErrInsufficientFunds]
    by_cases h2 : failsAt f 2 = true
    · left; simp [h0, h1, hi, h2]
    by_cases hf : creditFits db.balances v delta = true
    swap
    · left; simp [h0, h1, hi, h2, hf]
    by_cases h3 : failsAt f 3 = true
    · left; simp [h0, h1, hi, h2, hf, h3]
    right
    exact ⟨row, rfl, hi, by simp [h0, h1, hi, h2, hf, h3]⟩

/-- The two ways `CreateWithdrawal` can end: rolled back, or committed with the record
inserted and the debit applied to a row holding at least `sum`. -/
theorem CreateWithdrawal_cases (db : DB) (v : Int) (n : String) (sum : ℚ) (f : Fault) :
    ((CreateWithdrawal db v n sum f).1 ≠ none ∧ (CreateWithdrawal db v n sum f).2 = db)
      ∨ ∃ row, selectBalance db v = some row ∧ sum ≤ row.current
          ∧ CreateWithdrawal db v n sum f
              = (none,
                  { db with
                    withdrawals := db.withdrawals ++ [WithdrawalRow.mk v n (roundCents sum)]
                    balances := debitRows db.balances v sum }) := by
  unfold CreateWithdrawal
  by_cases h0 : failsAt f 0 = true
  · left; simp [h0]
  by_cases h1 : failsAt f 1 = true
  · left; simp [h0, h1]
  cases hs : selectBalance db v with
  | none => left; simp [h0, h1]
  | some row =>
    by_cases hi : row.current < sum
    · left; simp [h0, h1, hi, storage.ErrInsufficientFunds]
    by_cases h2 : failsAt f 2 = true
    · left; simp [h0, h1, hi, h2]
    by_cases hs2 : fitsDecimal sum = true
    swap
    · left; simp [h0, h1, hi, h2, hs2]
    by_cases h3 : failsAt f 3 = true
    · left; simp [h0, h1, hi, h2, hs2, h3]
    by_cases hf : debitFits db.balances v sum = true
    swap
    · left; simp [h0, h1, hi, h2, hs2, h3, hf]
    by_cases h4 : failsAt f 4 = true
    · left; simp [h0, h1, hi, h2, hs2, h3, hf, h4]
    right
    exact ⟨row, rfl, not_lt.mp hi, by simp [h0, h1, hi, h2, hs2, h3, hf, h4]⟩

/-- The two ways `Withdraw` can end as far as the database goes: unchanged, or debited
by a positive amount that the balance covers. -/
theorem Withdraw_cases (db : DB) (v : Int) (n : String) (amount : ℚ) (f : Fault) :
    (Withdraw db v n amount f).db = db
      ∨ ∃ row, selectBalance db v = some row ∧ 0 < amount ∧ amount ≤ row.current
          ∧ (Withdraw db v n amount f).db
              = { db with
                  withdrawals := db.withdrawals ++ [WithdrawalRow.mk v n (roundCents amount)]
                  balances := debitRows db.balances v amount } := by
  unfold Withdraw
  by_cases hl : ValidateLuhn n = true
  swap
  · left; simp [hl]
  by_cases ha : amount ≤ 0
  · left; simp [hl, ha]
  rcases CreateWithdrawal_cases db v n amount f with ⟨he, hd⟩ | ⟨row, hrow, hle, heq⟩
  · left
    cases hc : CreateWithdrawal db v n amount f with
    | mk e d =>
      rw [hc] at he hd
      cases e with
      | none => exact absurd rfl he
      | some err =>
        simp only [hl, ha, Bool.not_true, Bool.false_eq_true, if_false]
        split_ifs <;> exact hd
  · right
    refine ⟨row, hrow, not_le.mp ha, hle, ?_⟩
    simp [hl, ha, heq]

/-! ## Balance ledger: claims -/

/-- C3, counterexample: a withdrawal of 0.005 from a balance of 100.50 with 50.25
withdrawn returns nil, and the `DECIMAL(10, 2)` columns then hold `current = 100.50`
(not 100.495), `withdrawn = 50.26` (not 50.255) and a record of 0.01 (not 0.005). -/
theorem CreateWithdrawal_rounds_sub_cent_sum :
    (0 : ℚ) < 1 / 200 ∧ (1 / 200 : ℚ) ≤ 201 / 2
      ∧ (CreateWithdrawal (singleUserDB (201 / 2) (201 / 4)) 1 "2377225624" (1 / 200) none).1
          = none
      ∧ selectBalance
          (CreateWithdrawal (singleUserDB (201 / 2) (201 / 4)) 1 "2377225624" (1 / 200) none).2 1
          = some (BalanceRow.mk 1 (201 / 2) (2513 / 50))
      ∧ (CreateWithdrawal (singleUserDB (201 / 2) (201 / 4)) 1 "2377225624" (1 / 200)
            none).2.withdrawals
          = [WithdrawalRow.mk 1 "2377225624" (1 / 100)]
      ∧ (201 / 2 : ℚ) ≠ 201 / 2 - 1 / 200 ∧ (2513 / 50 : ℚ) ≠ 201 / 4 + 1 / 200
      ∧ (1 / 100 : ℚ) ≠ 1 / 200 := by
  decide!

/-- C3, amended: for a user whose one balance row holds `current` and `withdrawn` in whole
hundredths, and every sum in whole hundredths with `0 < sum ≤ current` (the bound
included), `current` and `withdrawn + sum` being within the range of their columns,
`CreateWithdrawal` on a working database returns nil, leaves `current - sum` and
`withdrawn + sum` in the row, and appends the one withdrawal record of that user,
reference and sum; for any sum with which it returns nil, the row and the record hold
the values rounded to two decimals. -/
theorem CreateWithdrawal_whole_cents_within_balance (db : DB) (userID : Int)
    (orderRef : String) (sum : ℚ) (row : BalanceRow)
    (hrow : selectBalance db userID = some row)
    (hkey : ∀ r ∈ db.balances, r.user_id = userID → r = row)
    (hcur : isCents row.current) (hwd : isCents row.withdrawn) (hsum : isCents sum)
    (hpos : 0 < sum) (hle : sum ≤ row.current)
    (hrange : row.current < 100000000
      ∧ -100000000 < row.withdrawn + sum ∧ row.withdrawn + sum < 100000000) :
    ((CreateWithdrawal db userID orderRef sum none).1 = none
      ∧ selectBalance (CreateWithdrawal db userID orderRef sum none).2 userID
          = some (BalanceRow.mk userID (row.current - sum) (row.withdrawn + sum))
      ∧ (CreateWithdrawal db userID orderRef sum none).2.withdrawals
          = db.withdrawals ++ [WithdrawalRow.mk userID orderRef sum]
      ∧ (CreateWithdrawal db userID orderRef sum none).2.orders = db.orders)
    ∧ ∀ s : ℚ, (CreateWithdrawal db userID orderRef s none).1 = none →
        selectBalance (CreateWithdrawal db userID orderRef s none).2 userID
          = some (BalanceRow.mk userID (roundCents (row.current - s))
              (roundCents (row.withdrawn + s)))
        ∧ (CreateWithdrawal db userID orderRef s none).2.withdrawals
          = db.withdrawals ++ [WithdrawalRow.mk userID orderRef (roundCents s)] := by
  have hid := selectBalance_user_id hrow
  obtain ⟨hc8, hw1, hw2⟩ := hrange
  have hgen : ∀ s : ℚ, (CreateWithdrawal db userID orderRef s none).1 = none →
      selectBalance (CreateWithdrawal db userID orderRef s none).2 userID
        = some (BalanceRow.mk userID (roundCents (row.current - s))
            (roundCents (row.withdrawn + s)))
      ∧ (CreateWithdrawal db userID orderRef s none).2.withdrawals
        = db.withdrawals ++ [WithdrawalRow.mk userID orderRef (roundCents s)] := by
    intro s hs
    rcases CreateWithdrawal_cases db userID orderRef s none with ⟨he, _⟩ | ⟨r, _, _, heq⟩
    · exact absurd hs he
    · rw [heq]
      refine ⟨?_, rfl⟩
      rw [selectBalance_debitRows, hrow]
      simp [hid]
  have hr1 : roundCents (row.current - sum) = row.current - sum :=
    roundCents_of_isCents (isCents_sub hcur hsum)
  have hr2 : roundCents (row.withdrawn + sum) = row.withdrawn + sum :=
    roundCents_of_isCents (isCents_add hwd hsum)
  have hr3 : roundCents sum = sum := roundCents_of_isCents hsum
  have hfs : fitsDecimal sum = true := by
    simp only [fitsDecimal, hr3, decide_eq_true_eq]
    constructor <;> linarith
  have hfd : debitFits db.balances userID sum = true := by
    simp only [debitFits, List.all_eq_true]
    intro r hr
    by_cases hu : r.user_id = userID
    · have hrr := hkey r hr hu
      subst hrr
      simp only [fitsDecimal, hr1, hr2, Bool.or_eq_true, Bool.and_eq_true, decide_eq_true_eq]
      right
      refine ⟨⟨?_, ?_⟩, hw1, hw2⟩ <;> linarith
    · simp [hu]
  have hok : (CreateWithdrawal db userID orderRef sum none).1 = none := by
    simp [CreateWithdrawal, failsAt, hrow, not_lt.mpr hle, hfs, hfd]
  obtain ⟨hsel, hwds⟩ := hgen sum hok
  refine ⟨⟨hok, ?_, ?_, ?_⟩, hgen⟩
  · rw [hsel, hr1, hr2]
  · rw [hwds, hr3]
  · rcases CreateWithdrawal_cases db userID orderRef sum none with ⟨he, _⟩ | ⟨r, _, _, heq⟩
    · exact absurd hok he
    · rw [heq]

theorem CreateWithdrawal_whole_cents_within_balance_witness :
    selectBalance (singleUserDB (201 / 2) (201 / 4)) 1 = some (BalanceRow.mk 1 (201 / 2) (201 / 4))
      ∧ isCents (201 / 2) ∧ isCents (201 / 4) ∧ isCents 100
      ∧ (0 : ℚ) < 100 ∧ (100 : ℚ) ≤ 201 / 2
      ∧ (CreateWithdrawal (singleUserDB (201 / 2) (201 / 4)) 1 "2377225624" 100 none).1 = none
      ∧ selectBalance (CreateWithdrawal (singleUserDB (201 / 2) (201 / 4)) 1 "2377225624" 100
            none).2 1
          = some (BalanceRow.mk 1 (1 / 2) (601 / 4))
      ∧ (CreateWithdrawal (singleUserDB (201 / 2) (201 / 4)) 1 "2377225624" 100 none).2.withdrawals
          = [WithdrawalRow.mk 1 "2377225624" 100] := by
  have h1 : isCents (201 / 2) := ⟨10050, by norm_num⟩
  have h2 : isCents (201 / 4) := ⟨5025, by norm_num⟩
  have h3 : isCents 100 := ⟨10000, by norm_num⟩
  have h := (CreateWithdrawal_whole_cents_within_balance (singleUserDB (201 / 2) (201 / 4)) 1
    "2377225624" 100 (BalanceRow.mk 1 (201 / 2) (201 / 4)) rfl
    (by intro r hr _; simpa [singleUserDB] using hr) h1 h2 h3 (by norm_num) (by norm_num)
    (by norm_num)).1
  refine ⟨rfl, h1, h2, h3, by norm_num, by norm_num, h.1, ?_, h.2.2.1⟩
  rw [h.2.1]
  norm_num

/-- C4: a debit above the available balance fails with `ErrInsufficientFunds` and
changes nothing: for a user with a balance row, `CreateWithdrawal` with `sum > current`
and `UpdateBalance` with `delta < 0` and `current + delta < 0` both return
`storage.ErrInsufficientFunds` once the row has been read, and leave the database
(balances and withdrawal records) as it was. -/
theorem debit_above_balance_fails (db : DB) (userID : Int) (row : BalanceRow)
    (hrow : selectBalance db userID = some row) (f : Fault)
    (hread : failsAt f 0 = false ∧ failsAt f 1 = false) :
    (∀ (orderRef : String) (sum : ℚ), row.current < sum →
        CreateWithdrawal db userID orderRef sum f = (some storage.ErrInsufficientFunds, db))
      ∧ (∀ delta : ℚ, delta < 0 → row.current + delta < 0 →
        UpdateBalance db userID delta f = (some storage.ErrInsufficientFunds, db)) := by
  obtain ⟨h0, h1⟩ := hread
  constructor
  · intro orderRef sum hlt
    simp [CreateWithdrawal, h0, h1, hrow, hlt]
  · intro delta hneg hlt
    simp [UpdateBalance, h0, h1, hrow, hneg, hlt]

theorem debit_above_balance_fails_witness :
    selectBalance (singleUserDB 10 0) 1 = some (BalanceRow.mk 1 10 0)
      ∧ CreateWithdrawal (singleUserDB 10 0) 1 "2377225624" 1000 none
          = (some storage.ErrInsufficientFunds, singleUserDB 10 0)
      ∧ UpdateBalance (singleUserDB 10 0) 1 (-20) none
          = (some storage.ErrInsufficientFunds, singleUserDB 10 0) :=
  ⟨rfl,
    (debit_above_balance_fails (singleUserDB 10 0) 1 (BalanceRow.mk 1 10 0) rfl none
      ⟨rfl, rfl⟩).1 "2377225624" 1000 (by norm_num),
    (debit_above_balance_fails (singleUserDB 10 0) 1 (BalanceRow.mk 1 10 0) rfl none
      ⟨rfl, rfl⟩).2 (-20) (by norm_num) (by norm_num)⟩

/-- One ledger operation keeps `current` of user `u` non-negative and `withdrawn` a whole
number of hundredths, and does not lower `withdrawn`. -/
theorem applyLedgerOp_keeps (db : DB) (u : Int) (r : BalanceRow)
    (hr : selectBalance db u = some r) (hc : 0 ≤ r.current) (hw : isCents r.withdrawn)
    (op : LedgerOp) :
    ∃ r1, selectBalance (applyLedgerOp db op) u = some r1 ∧ 0 ≤ r1.current
      ∧ r.withdrawn ≤ r1.withdrawn ∧ isCents r1.withdrawn := by
  have hid := selectBalance_user_id hr
  cases op with
  | updateBalance v delta f =>
    simp only [applyLedgerOp]
    rcases UpdateBalance_cases db v delta f with ⟨_, hd⟩ | ⟨row, hrow, hguard, heq⟩
    · rw [hd]; exact ⟨r, hr, hc, le_refl _, hw⟩
    · rw [heq]
      simp only [selectBalance_creditRows, hr, Option.map_some']
      by_cases hv : r.user_id = v
      · have hrr : row = r := by
          rw [← hv, hid, hr] at hrow
          exact (Option.some.inj hrow).symm
        subst hrr
        refine ⟨_, rfl, ?_, ?_, ?_⟩
        · simp only [hv, beq_self_eq_true, if_true]
          apply roundCents_nonneg
          by_contra hlt
          push_neg at hlt
          have hd : delta < 0 := by linarith
          exact hguard ⟨hd, hlt⟩
        · simp [hv]
        · simpa [hv] using hw
      · exact ⟨r, by simp [hv], hc, le_refl _, hw⟩
  | withdraw v n amount f =>
    simp only [applyLedgerOp]
    rcases Withdraw_cases db v n amount f with hd | ⟨row, hrow, hpos, hle, heq⟩
    · rw [hd]; exact ⟨r, hr, hc, le_refl _, hw⟩
    · rw [heq]
      simp only [selectBalance_debitRows, hr, Option.map_some']
      by_cases hv : r.user_id = v
      · have hrr : row = r := by
          rw [← hv, hid, hr] at hrow
          exact (Option.some.inj hrow).symm
        subst hrr
        refine ⟨_, rfl, ?_, ?_, ?_⟩
        · simp only [hv, beq_self_eq_true, if_true]
          exact roundCents_nonneg (by linarith)
        · simp only [hv, beq_self_eq_true, if_true]
          have h1 : roundCents row.withdrawn ≤ roundCents (row.withdrawn + amount) :=
            roundCents_mono (by linarith)
          rw [roundCents_of_isCents hw] at h1
          exact h1
        · simp only [hv, beq_self_eq_true, if_true]
          exact isCents_roundCents _
      · exact ⟨r, by simp [hv], hc, le_refl _, hw⟩

theorem applyLedgerOps_keeps (u : Int) (ops : List LedgerOp) (db : DB) (r : BalanceRow)
    (hr : selectBalance db u = some r) (hc : 0 ≤ r.current) (hw : isCents r.withdrawn) :
    ∃ r1, selectBalance (applyLedgerOps db ops) u = some r1 ∧ 0 ≤ r1.current
      ∧ isCents r1.withdrawn := by
  induction ops generalizing db r with
  | nil => exact ⟨r, hr, hc, hw⟩
  | cons op ops ih =>
    obtain ⟨r1, h1, hc1, _, hw1⟩ := applyLedgerOp_keeps db u r hr hc hw op
    exact ih (applyLedgerOp db op) r1 h1 hc1 hw1

/-- C5: from a new user's balance `current = withdrawn = 0`, after every sequence of
ledger operations (`UpdateBalance` with any delta, `BalanceService.Withdraw` with any
reference and amount, against any user and with any database failure) the user's
`current` is non-negative, and one more operation leaves it non-negative and does not
lower `withdrawn`. -/
theorem ledger_current_nonneg_withdrawn_monotone (db : DB) (u : Int)
    (hnew : selectBalance db u = some (BalanceRow.mk u 0 0)) (ops : List LedgerOp)
    (op : LedgerOp) :
    ∃ r r1, selectBalance (applyLedgerOps db ops) u = some r
      ∧ selectBalance (applyLedgerOp (applyLedgerOps db ops) op) u = some r1
      ∧ 0 ≤ r.current ∧ 0 ≤ r1.current ∧ r.withdrawn ≤ r1.withdrawn := by
  obtain ⟨r, hr, hc, hcw⟩ :=
    applyLedgerOps_keeps u ops db (BalanceRow.mk u 0 0) hnew (le_refl _) isCents_zero
  obtain ⟨r1, h1, hc1, hw, _⟩ := applyLedgerOp_keeps (applyLedgerOps db ops) u r hr hc hcw op
  exact ⟨r, r1, hr, h1, hc, hc1, hw⟩

theorem ledger_current_nonneg_withdrawn_monotone_witness :
    selectBalance (singleUserDB 0 0) 1 = some (BalanceRow.mk 1 0 0)
      ∧ ∃ r r1,
        selectBalance (applyLedgerOps (singleUserDB 0 0)
            [LedgerOp.updateBalance 1 50 none, LedgerOp.withdraw 1 "4561261212345467" 80 none,
              LedgerOp.updateBalance 1 (-70) none]) 1 = some r
        ∧ selectBalance (applyLedgerOp (applyLedgerOps (singleUserDB 0 0)
            [LedgerOp.updateBalance 1 50 none, LedgerOp.withdraw 1 "4561261212345467" 80 none,
              LedgerOp.updateBalance 1 (-70) none])
            (LedgerOp.withdraw 1 "4561261212345467" 20 none)) 1 = some r1
        ∧ 0 ≤ r.current ∧ 0 ≤ r1.current ∧ r.withdrawn ≤ r1.withdrawn :=
  ⟨rfl, ledger_current_nonneg_withdrawn_monotone (singleUserDB 0 0) 1 rfl _ _⟩

theorem applyMovements_balance (u : Int) (ms : List Movement) (db : DB) (c w : ℚ)
    (hrow : selectBalance db u = some (BalanceRow.mk u c w)) (hc : isCents c)
    (hw : isCents w) (hcents : centAmounts ms) :
    selectBalance (applyMovements u db ms) u
      = some (BalanceRow.mk u
          (c + successfulCreditTotal u db ms - successfulDebitTotal u db ms)
          (w + successfulDebitTotal u db ms)) := by
  induction ms generalizing db c w with
  | nil => simp [applyMovements, successfulCreditTotal, successfulDebitTotal, hrow]
  | cons m ms ih =>
    cases m with
    | credit delta =>
      obtain ⟨hd, hrest⟩ := hcents
      rcases UpdateBalance_cases db u delta none with ⟨he, hdb⟩ | ⟨row, _, _, heq⟩
      · have hstep : selectBalance (applyMovement u db (Movement.credit delta)) u
            = some (BalanceRow.mk u c w) := by
          simp only [applyMovement, hdb, hrow]
        have h := ih (applyMovement u db (Movement.credit delta)) c w hstep hc hw hrest
        simp only [applyMovements, List.foldl_cons] at h ⊢
        rw [h]
        simp only [successfulCreditTotal, successfulDebitTotal, if_neg he]
        congr 2
        ring
      · have hstep : selectBalance (applyMovement u db (Movement.credit delta)) u
            = some (BalanceRow.mk u (c + delta) w) := by
          simp only [applyMovement]
          rw [heq, selectBalance_creditRows, hrow]
          simp [roundCents_of_isCents (isCents_add hc hd)]
        have h := ih (applyMovement u db (Movement.credit delta)) (c + delta) w hstep
          (isCents_add hc hd) hw hrest
        simp only [applyMovements, List.foldl_cons] at h ⊢
        rw [h]
        have hok : (UpdateBalance db u delta none).1 = none := by rw [heq]
        simp only [successfulCreditTotal, successfulDebitTotal, if_pos hok]
        congr 2
        ring
    | debit n sum =>
      obtain ⟨hd, hrest⟩ := hcents
      rcases CreateWithdrawal_cases db u n sum none with ⟨he, hdb⟩ | ⟨row, _, _, heq⟩
      · have hstep : selectBalance (applyMovement u db (Movement.debit n sum)) u
            = some (BalanceRow.mk u c w) := by
          simp only [applyMovement, hdb, hrow]
        have h := ih (applyMovement u db (Movement.debit n sum)) c w hstep hc hw hrest
        simp only [applyMovements, List.foldl_cons] at h ⊢
        rw [h]
        simp only [successfulCreditTotal, successfulDebitTotal, if_neg he]
        congr 2 <;> ring
      · have hstep : selectBalance (applyMovement u db (Movement.debit n sum)) u
            = some (BalanceRow.mk u (c - sum) (w + sum)) := by
          simp only [applyMovement]
          rw [heq, selectBalance_debitRows, hrow]
          simp [roundCents_of_isCents (isCents_sub hc hd),
            roundCents_of_isCents (isCents_add hw hd)]
        have h := ih (applyMovement u db (Movement.debit n sum)) (c - sum) (w + sum) hstep
          (isCents_sub hc hd) (isCents_add hw hd) hrest
        simp only [applyMovements, List.foldl_cons] at h ⊢
        rw [h]
        have hok : (CreateWithdrawal db u n sum none).1 = none := by rw [heq]
        simp only [successfulCreditTotal, successfulDebitTotal, if_pos hok]
        congr 2 <;> ring

/-- C6, counterexample: from `current = withdrawn = 0`, a credit of 1 followed by a debit
of 0.005, which succeeds, leaves `current = 1` and `withdrawn = 0.01`, while the sum of
the credits minus the sum of the successful debits is 0.995 and the sum of the successful
debits is 0.005. -/
theorem balance_rounds_sub_cent_debit :
    positiveAmounts [Movement.credit 1, Movement.debit "4561261212345467" (1 / 200)]
      ∧ selectBalance (applyMovements 1 (singleUserDB 0 0)
          [Movement.credit 1, Movement.debit "4561261212345467" (1 / 200)]) 1
        = some (BalanceRow.mk 1 1 (1 / 100))
      ∧ creditTotal [Movement.credit 1, Movement.debit "4561261212345467" (1 / 200)]
          - successfulDebitTotal 1 (singleUserDB 0 0)
            [Movement.credit 1, Movement.debit "4561261212345467" (1 / 200)] = 199 / 200
      ∧ successfulDebitTotal 1 (singleUserDB 0 0)
          [Movement.credit 1, Movement.debit "4561261212345467" (1 / 200)] = 1 / 200 := by
  refine ⟨by norm_num [positiveAmounts], by decide!, by decide!, by decide!⟩

/-- C6, amended: for every sequence of credits (`UpdateBalance` with a positive delta) and
debits (`CreateWithdrawal` with a positive sum) in whole hundredths against one user,
applied one after the other from `current = withdrawn = 0`, the final `current` is the
sum of the credits that succeeded minus the sum of the debits that succeeded, and
`withdrawn` is the sum of the debits that succeeded; a credit with a positive delta to a
user with a balance row succeeds exactly when every new value fits its column. -/
theorem balance_is_successful_credits_minus_successful_debits (db : DB) (u : Int)
    (hnew : selectBalance db u = some (BalanceRow.mk u 0 0)) (ms : List Movement)
    (hpos : positiveAmounts ms) (hcents : centAmounts ms) :
    selectBalance (applyMovements u db ms) u
        = some (BalanceRow.mk u
            (successfulCreditTotal u db ms - successfulDebitTotal u db ms)
            (successfulDebitTotal u db ms))
      ∧ ∀ (db1 : DB) (row : BalanceRow) (delta : ℚ), selectBalance db1 u = some row →
          0 < delta →
          ((UpdateBalance db1 u delta none).1 = none
            ↔ creditFits db1.balances u delta = true) := by
  have _ := hpos
  have h := applyMovements_balance u ms db 0 0 hnew isCents_zero isCents_zero hcents
  refine ⟨by simpa using h, ?_⟩
  intro db1 row delta hrow hd
  by_cases hf : creditFits db1.balances u delta = true
  · simp [UpdateBalance, failsAt, hrow, not_lt.mpr (le_of_lt hd), hf]
  · simp [UpdateBalance, failsAt, hrow, not_lt.mpr (le_of_lt hd), hf]

theorem balance_is_successful_credits_minus_successful_debits_witness :
    selectBalance (singleUserDB 0 0) 1 = some (BalanceRow.mk 1 0 0)
      ∧ positiveAmounts [Movement.credit 50, Movement.debit "4561261212345467" 80,
          Movement.debit "4561261212345467" (2050 / 100), Movement.credit 5]
      ∧ centAmounts [Movement.credit 50, Movement.debit "4561261212345467" 80,
          Movement.debit "4561261212345467" (2050 / 100), Movement.credit 5]
      ∧ selectBalance (applyMovements 1 (singleUserDB 0 0)
          [Movement.credit 50, Movement.debit "4561261212345467" 80,
            Movement.debit "4561261212345467" (2050 / 100), Movement.credit 5]) 1
        = some (BalanceRow.mk 1
            (successfulCreditTotal 1 (singleUserDB 0 0)
                [Movement.credit 50, Movement.debit "4561261212345467" 80,
                  Movement.debit "4561261212345467" (2050 / 100), Movement.credit 5]
              - successfulDebitTotal 1 (singleUserDB 0 0)
                [Movement.credit 50, Movement.debit "4561261212345467" 80,
                  Movement.debit "4561261212345467" (2050 / 100), Movement.credit 5])
            (successfulDebitTotal 1 (singleUserDB 0 0)
              [Movement.credit 50, Movement.debit "4561261212345467" 80,
                Movement.debit "4561261212345467" (2050 / 100), Movement.credit 5])) := by
  have hc : centAmounts [Movement.credit 50, Movement.debit "4561261212345467" 80,
      Movement.debit "4561261212345467" (2050 / 100), Movement.credit 5] :=
    ⟨⟨5000, by norm_num⟩, ⟨8000, by norm_num⟩, ⟨2050, by norm_num⟩, ⟨500, by norm_num⟩,
      trivial⟩
  exact ⟨rfl, by norm_num [positiveAmounts], hc,
    (balance_is_successful_credits_minus_successful_debits (singleUserDB 0 0) 1 rfl _
      (by norm_num [positiveAmounts]) hc).1⟩

/-! ## BalanceService.Withdraw: claims -/

/-- C9: `BalanceService.Withdraw` rejects bad input before it touches the ledger: a
reference failing `ValidateLuhn` gives `ErrInvalidOrder`, a valid reference with
`amount ≤ 0` gives `ErrInvalidWithdraw`, both without any store call and with the
database untouched; `CreateWithdrawal` is called, once and with the same user, reference
and amount, exactly when the reference is Luhn-valid and `amount > 0`. -/
theorem Withdraw_validates_before_ledger (db : DB) (userID : Int) (orderNumber : String)
    (amount : ℚ) (f : Fault) :
    (ValidateLuhn orderNumber = false →
        (Withdraw db userID orderNumber amount f).err = some apperrors.ErrInvalidOrder
          ∧ (Withdraw db userID orderNumber amount f).calls = []
          ∧ (Withdraw db userID orderNumber amount f).db = db)
      ∧ (ValidateLuhn orderNumber = true → amount ≤ 0 →
        (Withdraw db userID orderNumber amount f).err = some apperrors.ErrInvalidWithdraw
          ∧ (Withdraw db userID orderNumber amount f).calls = []
          ∧ (Withdraw db userID orderNumber amount f).db = db)
      ∧ ((ValidateLuhn orderNumber = true ∧ 0 < amount) ↔
        (Withdraw db userID orderNumber amount f).calls
            = [StoreCall.CreateWithdrawal userID orderNumber amount
                (CreateWithdrawal db userID orderNumber amount f).1]
          ∧ (Withdraw db userID orderNumber amount f).db
            = (CreateWithdrawal db userID orderNumber amount f).2) := by
  refine ⟨?_, ?_, ?_⟩
  · intro hl
    simp [Withdraw, hl]
  · intro hl ha
    simp [Withdraw, hl, ha]
  · constructor
    · rintro ⟨hl, ha⟩
      have hna : ¬ amount ≤ 0 := not_le.mpr ha
      cases hc : CreateWithdrawal db userID orderNumber amount f with
      | mk e d =>
        cases e with
        | none => simp [Withdraw, hl, hna, hc]
        | some err =>
          simp only [Withdraw, hl, hna, hc, Bool.not_true, Bool.false_eq_true, if_false]
          split_ifs <;> exact ⟨rfl, rfl⟩
    · rintro ⟨hcalls, _⟩
      by_cases hl : ValidateLuhn orderNumber = true
      · by_cases ha : amount ≤ 0
        · simp [Withdraw, hl, ha] at hcalls
        · exact ⟨hl, not_le.mp ha⟩
      · simp [Withdraw, hl] at hcalls

theorem Withdraw_validates_before_ledger_witness :
    ValidateLuhn "12345" = false
      ∧ (Withdraw (singleUserDB 100 0) 1 "12345" 50 none).err = some apperrors.ErrInvalidOrder
      ∧ (Withdraw (singleUserDB 100 0) 1 "12345" 50 none).calls = []
      ∧ (Withdraw (singleUserDB 100 0) 1 "12345" 50 none).db = singleUserDB 100 0 :=
  ⟨by decide,
    (Withdraw_validates_before_ledger (singleUserDB 100 0) 1 "12345" 50 none).1 (by decide)⟩

/-! ## OrderProcessor.checkOrder: lemmas -/

theorem UpdateOrderStatus_cases (db : DB) (n : String) (st : OrderStatus) (acc : ℚ)
    (f : Fault) :
    ((UpdateOrderStatus db n st acc f).1 ≠ none ∧ (UpdateOrderStatus db n st acc f).2 = db)
      ∨ (UpdateOrderStatus db n st acc f
            = (none,
                { db with
                  orders := db.orders.map (setStatus n st (if acc > 0 then some acc else none)) })
          ∧ db.orders.any (fun o => o.Number == n) = true) := by
  unfold UpdateOrderStatus
  by_cases h0 : failsAt f 0 = true
  · left; simp [h0]
  by_cases ha : db.orders.any (fun o => o.Number == n) = true
  · right
    refine ⟨?_, ha⟩
    simp only [h0, Bool.false_eq_true, if_false, ha, if_true]
  · left; simp [h0, ha]

theorem selectOrder_setStatus (db : DB) (n : String) (st : OrderStatus) (av : Option ℚ) :
    selectOrder { db with orders := db.orders.map (setStatus n st av) } n
      = (selectOrder db n).map (setStatus n st av) := by
  simp only [selectOrder, List.find?_map]
  congr 1
  apply congrArg (fun q => List.find? q db.orders)
  funext o
  by_cases h : o.Number = n <;> simp [setStatus, h]

theorem selectOrder_of_any (db : DB) (n : String)
    (h : db.orders.any (fun o => o.Number == n) = true) :
    ∃ o, selectOrder db n = some o ∧ o.Number = n := by
  cases hs : selectOrder db n with
  | none =>
    exfalso
    simp only [selectOrder, List.find?_eq_none] at hs
    simp only [List.any_eq_true] at h
    obtain ⟨o, ho, hn⟩ := h
    exact hs o ho hn
  | some o =>
    have h1 := List.find?_some hs
    exact ⟨o, rfl, by simpa using h1⟩

/-- The ways `checkOrder` can go on a settlement response `a`, by the outcome of its
store calls. -/
theorem checkOrder_response (db : DB) (n : String) (a : AccrualResponse) (fs : CheckFaults) :
    (∃ err, (UpdateOrderStatus db n a.Status a.Accrual fs.updateOrderStatus).1 = some err
        ∧ checkOrder db n (Except.ok (some a)) fs
          = CheckResult.mk (some (GoError.wrapf "failed to update order status" err)) false db
              [StoreCall.UpdateOrderStatus n a.Status a.Accrual (some err)])
      ∨ (∃ o, selectOrder db n = some o
          ∧ UpdateOrderStatus db n a.Status a.Accrual fs.updateOrderStatus
            = (none,
                { db with
                  orders := db.orders.map
                    (setStatus n a.Status (if a.Accrual > 0 then some a.Accrual else none)) })
          ∧ ((¬ (a.Status = StatusProcessed ∧ a.Accrual > 0)
              ∧ checkOrder db n (Except.ok (some a)) fs
                = CheckResult.mk none false
                    (UpdateOrderStatus db n a.Status a.Accrual fs.updateOrderStatus).2
                    [StoreCall.UpdateOrderStatus n a.Status a.Accrual none])
            ∨ ((a.Status = StatusProcessed ∧ a.Accrual > 0)
              ∧ failsAt fs.getOrder 0 = true
              ∧ checkOrder db n (Except.ok (some a)) fs
                = CheckResult.mk (some (GoError.wrapf "failed to get order" (GoError.driver 0)))
                    false (UpdateOrderStatus db n a.Status a.Accrual fs.updateOrderStatus).2
                    [StoreCall.UpdateOrderStatus n a.Status a.Accrual none,
                      StoreCall.GetOrder n true])
            ∨ ((a.Status = StatusProcessed ∧ a.Accrual > 0)
              ∧ failsAt fs.getOrder 0 = false
              ∧ checkOrder db n (Except.ok (some a)) fs
                = CheckResult.mk
                    ((UpdateBalance
                        (UpdateOrderStatus db n a.Status a.Accrual fs.updateOrderStatus).2
                        o.UserID a.Accrual fs.updateBalance).1.map
                      (GoError.wrapf "failed to update balance"))
                    false
                    (UpdateBalance
                      (UpdateOrderStatus db n a.Status a.Accrual fs.updateOrderStatus).2
                      o.UserID a.Accrual fs.updateBalance).2
                    [StoreCall.UpdateOrderStatus n a.Status a.Accrual none,
                      StoreCall.GetOrder n false,
                      StoreCall.UpdateBalance o.UserID a.Accrual
                        (UpdateBalance
                          (UpdateOrderStatus db n a.Status a.Accrual fs.updateOrderStatus).2
                          o.UserID a.Accrual fs.updateBalance).1]))) := by
  rcases UpdateOrderStatus_cases db n a.Status a.Accrual fs.updateOrderStatus with
    ⟨he, hd⟩ | ⟨heq, hany⟩
  · left
    cases hu : UpdateOrderStatus db n a.Status a.Accrual fs.updateOrderStatus with
    | mk e d =>
      rw [hu] at he hd
      cases e with
      | none => exact absurd rfl he
      | some err =>
        refine ⟨err, rfl, ?_⟩
        simp only at hd
        simp only [checkOrder, hu, hd]
  · right
    obtain ⟨o, ho, _⟩ := selectOrder_of_any db n hany
    refine ⟨o, ho, heq, ?_⟩
    by_cases hp : a.Status = StatusProcessed ∧ a.Accrual > 0
    · right
      by_cases hg : failsAt fs.getOrder 0 = true
      · left
        refine ⟨hp, hg, ?_⟩
        simp only [checkOrder]
        rw [heq]
        simp only [if_pos hp, GetOrder, hg, if_true]
      · right
        have hg1 : failsAt fs.getOrder 0 = false := by simpa using hg
        refine ⟨hp, hg1, ?_⟩
        have hsel := selectOrder_setStatus db n a.Status
          (if a.Accrual > 0 then some a.Accrual else none)
        rw [ho] at hsel
        simp only [Option.map_some'] at hsel
        have huid : (setStatus n a.Status (if a.Accrual > 0 then some a.Accrual else none)
            o).UserID = o.UserID := by
          unfold setStatus
          split_ifs <;> rfl
        simp only [checkOrder]
        rw [heq]
        simp only [if_pos hp, GetOrder, hg1, Bool.false_eq_true, if_false, hsel, huid]
        cases hb : UpdateBalance
            { db with
              orders := db.orders.map
                (setStatus n a.Status (if a.Accrual > 0 then some a.Accrual else none)) }
            o.UserID a.Accrual fs.updateBalance with
        | mk e d =>
          cases e <;> simp
    · left
      refine ⟨hp, ?_⟩
      simp only [checkOrder]
      rw [heq]
      simp only [if_neg hp]

theorem pollOne_keeps_on_error (env : Nat → PollEnv) (p : Processor) (n : String)
    (lastCheck : Int)
    (herr : (checkOrder p.db n (env p.polls).settlement (env p.polls).faults).err ≠ none)
    (hpanic : (checkOrder p.db n (env p.polls).settlement (env p.polls).faults).panicked
      = false) :
    (pollOne env p n lastCheck).pending = p.pending := by
  unfold pollOne
  by_cases hc : p.crashed = true
  · simp [hc]
  by_cases hd : p.now - lastCheck < 5 * second
  · simp [hc, hd]
  simp only [hc, hd, hpanic, Bool.false_eq_true, if_false]
  cases he : (checkOrder p.db n (env p.polls).settlement (env p.polls).faults).err with
  | none => exact absurd he herr
  | some e => cases e <;> rfl

/-! ## OrderProcessor.checkOrder: claims -/

/-- C10: `checkOrder` calls `UpdateBalance` only for a `PROCESSED` response with a
positive reward, and then with the user id of the stored order and the reward; for such
a response it does make that one call once the status update and the order lookup have
gone through; for a `PROCESSED` response with a reward that is not positive, for every
other response, for no response and for a client error it makes no `UpdateBalance` call
and leaves the balances as they were. -/
theorem checkOrder_credits_iff_processed_positive (db : DB) (n : String)
    (settlement : Settlement) (fs : CheckFaults) :
    (∀ u d e, StoreCall.UpdateBalance u d e ∈ (checkOrder db n settlement fs).calls →
        ∃ a o, settlement = Except.ok (some a) ∧ a.Status = StatusProcessed ∧ 0 < a.Accrual
          ∧ selectOrder db n = some o ∧ u = o.UserID ∧ d = a.Accrual)
      ∧ (∀ a o, settlement = Except.ok (some a) → a.Status = StatusProcessed →
          0 < a.Accrual → selectOrder db n = some o →
          failsAt fs.updateOrderStatus 0 = false → failsAt fs.getOrder 0 = false →
          ∃ e, (checkOrder db n settlement fs).calls
            = [StoreCall.UpdateOrderStatus n a.Status a.Accrual none,
                StoreCall.GetOrder n false, StoreCall.UpdateBalance o.UserID a.Accrual e])
      ∧ ((∀ a, settlement = Except.ok (some a) → ¬ (a.Status = StatusProcessed ∧ 0 < a.Accrual)) →
          (∀ u d e, StoreCall.UpdateBalance u d e ∉ (checkOrder db n settlement fs).calls)
            ∧ (checkOrder db n settlement fs).db.balances = db.balances) := by
  cases settlement with
  | error err =>
    refine ⟨?_, ?_, ?_⟩
    · intro u d e h; simp [checkOrder] at h
    · intro a o h; cases h
    · intro _; simp [checkOrder]
  | ok resp =>
    cases resp with
    | none =>
      refine ⟨?_, ?_, ?_⟩
      · intro u d e h; simp [checkOrder] at h
      · intro a o h; cases h
      · intro _; simp [checkOrder]
    | some a =>
      rcases checkOrder_response db n a fs with
        ⟨err, hsome, hres⟩ | ⟨o, ho, hupd, ⟨hnp, hres⟩ | ⟨hp, hg, hres⟩ | ⟨hp, hg, hres⟩⟩
      · refine ⟨?_, ?_, ?_⟩
        · intro u d e h; rw [hres] at h; simp at h
        · intro a1 o1 h1 _ _ hsel hf _
          exfalso
          have hany : db.orders.any (fun x => x.Number == n) = true := by
            unfold selectOrder at hsel
            simp only [List.any_eq_true]
            have hnum := List.find?_some hsel
            exact ⟨o1, List.mem_of_find?_eq_some hsel, hnum⟩
          have hcontra : (UpdateOrderStatus db n a.Status a.Accrual fs.updateOrderStatus).1
              = none := by
            simp [UpdateOrderStatus, hf, hany]
          rw [hsome] at hcontra
          cases hcontra
        · intro _; rw [hres]; simp
      · refine ⟨?_, ?_, ?_⟩
        · intro u d e h; rw [hres] at h; simp at h
        · intro a1 o1 h1 hs hr _ _ _
          cases h1
          exact absurd ⟨hs, hr⟩ hnp
        · intro _; rw [hres, hupd]; simp
      · refine ⟨?_, ?_, ?_⟩
        · intro u d e h; rw [hres] at h; simp at h
        · intro a1 o1 h1 _ _ _ _ hgo
          rw [hg] at hgo; cases hgo
        · intro h; exact absurd hp (h a rfl)
      · refine ⟨?_, ?_, ?_⟩
        · intro u d e h
          rw [hres] at h
          simp only [List.mem_cons, List.mem_singleton, StoreCall.UpdateBalance.injEq,
            List.not_mem_nil, or_false, false_or] at h
          rcases h with h | h | h
          · cases h
          · cases h
          · exact ⟨a, o, rfl, hp.1, hp.2, ho, h.1, h.2.1⟩
        · intro a1 o1 h1 _ _ hsel _ _
          cases h1
          rw [ho] at hsel
          cases hsel
          exact ⟨_, by rw [hres]⟩
        · intro h; exact absurd hp (h a rfl)

theorem checkOrder_credits_iff_processed_positive_witness :
    (∀ u d e, StoreCall.UpdateBalance u d e ∉
        (checkOrder sampleDB "4561261212345467"
          (Except.ok (some (AccrualResponse.mk "4561261212345467" StatusProcessed 0)))
          (CheckFaults.mk none none none)).calls)
      ∧ (checkOrder sampleDB "4561261212345467"
          (Except.ok (some (AccrualResponse.mk "4561261212345467" StatusProcessed 0)))
          (CheckFaults.mk none none none)).db.balances = sampleDB.balances :=
  (checkOrder_credits_iff_processed_positive sampleDB "4561261212345467"
    (Except.ok (some (AccrualResponse.mk "4561261212345467" StatusProcessed 0)))
    (CheckFaults.mk none none none)).2.2
    (by
      intro a h
      cases h
      simp)

/-- C2 does not hold as stated: on the stored order 4561261212345467 (status NEW, owner
with balance 0) and the response PROCESSED with reward 50, when the first round trip of
`UpdateBalance` fails, `checkOrder` returns an error although the stored status has
already become PROCESSED, and the balance is still 0. -/
theorem checkOrder_error_with_status_processed :
    (checkOrder sampleDB "4561261212345467" (Except.ok (some processedResponse))
        (CheckFaults.mk none none (some 0))).err
      = some (GoError.wrapf "failed to update balance" (GoError.driver 0))
    ∧ (selectOrder sampleDB "4561261212345467").map (fun o => o.Status) = some StatusRegistered
    ∧ (selectOrder (checkOrder sampleDB "4561261212345467"
          (Except.ok (some processedResponse)) (CheckFaults.mk none none (some 0))).db
        "4561261212345467").map (fun o => o.Status) = some StatusProcessed
    ∧ (checkOrder sampleDB "4561261212345467" (Except.ok (some processedResponse))
        (CheckFaults.mk none none (some 0))).db.balances = [BalanceRow.mk 1 0 0] := by
  decide

/-- C2, amended: for a PROCESSED response with a positive reward, `checkOrder` writes the
status first and credits after it, in separate store calls.  When `UpdateOrderStatus`
fails, `checkOrder` returns an error and the database is unchanged; when `checkOrder`
returns nil, the stored status is PROCESSED and the balance rows of the order's owner
have been credited with the reward; when `UpdateOrderStatus` went through and
`checkOrder` still returns an error, the stored status is PROCESSED and the balances
are unchanged. -/
theorem checkOrder_status_then_credit (db : DB) (n : String) (a : AccrualResponse)
    (fs : CheckFaults) (hs : a.Status = StatusProcessed) (hr : 0 < a.Accrual) :
    ((UpdateOrderStatus db n a.Status a.Accrual fs.updateOrderStatus).1 ≠ none →
        (checkOrder db n (Except.ok (some a)) fs).err ≠ none
          ∧ (checkOrder db n (Except.ok (some a)) fs).db = db)
      ∧ ((checkOrder db n (Except.ok (some a)) fs).err = none →
        ∃ o, selectOrder db n = some o
          ∧ (selectOrder (checkOrder db n (Except.ok (some a)) fs).db n).map
              (fun x => x.Status) = some StatusProcessed
          ∧ (checkOrder db n (Except.ok (some a)) fs).db.balances
              = creditRows db.balances o.UserID a.Accrual)
      ∧ ((UpdateOrderStatus db n a.Status a.Accrual fs.updateOrderStatus).1 = none →
        (checkOrder db n (Except.ok (some a)) fs).err ≠ none →
        (selectOrder (checkOrder db n (Except.ok (some a)) fs).db n).map
            (fun x => x.Status) = some StatusProcessed
          ∧ (checkOrder db n (Except.ok (some a)) fs).db.balances = db.balances) := by
  have hstat : ∀ o, selectOrder db n = some o →
      (selectOrder
        { db with
          orders := db.orders.map
            (setStatus n a.Status (if a.Accrual > 0 then some a.Accrual else none)) } n).map
        (fun x => x.Status) = some StatusProcessed := by
    intro o ho
    have hnum : o.Number = n := by
      unfold selectOrder at ho
      have h1 := List.find?_some ho
      simpa using h1
    rw [selectOrder_setStatus, ho]
    simp [setStatus, hnum, hs]
  rcases checkOrder_response db n a fs with
    ⟨err, hsome, hres⟩ | ⟨o, ho, hupd, ⟨hnp, _⟩ | ⟨_, _, hres⟩ | ⟨_, _, hres⟩⟩
  · refine ⟨?_, ?_, ?_⟩
    · intro _; rw [hres]; simp
    · intro h; rw [hres] at h; simp at h
    · intro h; rw [hsome] at h; cases h
  · exact absurd ⟨hs, hr⟩ hnp
  · refine ⟨?_, ?_, ?_⟩
    · intro h; rw [hupd] at h; exact absurd rfl h
    · intro h; rw [hres] at h; simp at h
    · intro _ _
      rw [hres, hupd]
      exact ⟨hstat o ho, rfl⟩
  · refine ⟨?_, ?_, ?_⟩
    · intro h; rw [hupd] at h; exact absurd rfl h
    · intro h
      rw [hres] at h
      simp only [Option.map_eq_none'] at h
      rw [hupd] at h hres
      rcases UpdateBalance_cases
          { db with
            orders := db.orders.map
              (setStatus n a.Status (if a.Accrual > 0 then some a.Accrual else none)) }
          o.UserID a.Accrual fs.updateBalance with ⟨he, _⟩ | ⟨row, _, _, heq⟩
      · exact absurd h he
      · refine ⟨o, ho, ?_, ?_⟩
        · rw [hres, heq]
          exact hstat o ho
        · rw [hres, heq]
    · intro _ h
      rw [hres] at h
      rw [hupd] at h hres
      rcases UpdateBalance_cases
          { db with
            orders := db.orders.map
              (setStatus n a.Status (if a.Accrual > 0 then some a.Accrual else none)) }
          o.UserID a.Accrual fs.updateBalance with ⟨_, hd⟩ | ⟨row, _, _, heq⟩
      · rw [hres, hd]
        exact ⟨hstat o ho, rfl⟩
      · rw [heq] at h
        simp at h

theorem checkOrder_status_then_credit_witness :
    processedResponse.Status = StatusProcessed ∧ 0 < processedResponse.Accrual
      ∧ ∃ o, selectOrder sampleDB "4561261212345467" = some o
        ∧ (selectOrder (checkOrder sampleDB "4561261212345467"
              (Except.ok (some processedResponse)) (CheckFaults.mk none none none)).db
            "4561261212345467").map (fun x => x.Status) = some StatusProcessed
        ∧ (checkOrder sampleDB "4561261212345467" (Except.ok (some processedResponse))
              (CheckFaults.mk none none none)).db.balances
            = creditRows sampleDB.balances o.UserID processedResponse.Accrual :=
  ⟨rfl, by decide,
    (checkOrder_status_then_credit sampleDB "4561261212345467" processedResponse
      (CheckFaults.mk none none none) rfl (by decide)).2.1 (by decide!)⟩

/-! ## OrderProcessor.processOrders: claims -/

/-- C1 at its failing input: the order 4561261212345467 of user 1 is added and received,
the accrual service answers PROCESSED with reward 50 at every poll, every store call
succeeds except the `GetOrder` call that `processOrders` makes after the first poll.
The first tick credits 50 and keeps the order in `pending`; the second tick polls the
order again and credits 50 a second time, so the balance ends at 100. -/
theorem processOrders_credits_twice :
    selectBalance (run doubleCreditEnv (NewOrderProcessor sampleDB 0) doubleCreditSchedule).db 1
        = some (BalanceRow.mk 1 100 0)
      ∧ (run doubleCreditEnv (NewOrderProcessor sampleDB 0) doubleCreditSchedule).log
        = [StoreCall.GetOrderAccrual "4561261212345467" 5000000000,
            StoreCall.UpdateOrderStatus "4561261212345467" StatusProcessed 50 none,
            StoreCall.GetOrder "4561261212345467" false,
            StoreCall.UpdateBalance 1 50 none,
            StoreCall.GetOrder "4561261212345467" true,
            StoreCall.GetOrderAccrual "4561261212345467" 6000000000,
            StoreCall.UpdateOrderStatus "4561261212345467" StatusProcessed 50 none,
            StoreCall.GetOrder "4561261212345467" false,
            StoreCall.UpdateBalance 1 50 none,
            StoreCall.GetOrder "4561261212345467" false] := by
  decide!

/-! ## Client.GetOrderAccrual: claims -/

theorem unexpected_status_message (statusCode : Nat) (body : String) :
    ("unexpected status code " ++ toString statusCode ++ ": " ++ body).data
      = "unexpected status code ".data ++ (toString statusCode).data ++ ": ".data ++ body.data := by
  simp [String.data_append]

/-- C15 does not hold as stated: for order 4561261212345467, against a service that
answers HTTP 429 with the header `Retry-After: 60`, `GetOrderAccrual` returns the error
"unexpected status code 429: ..." made with `fmt.Errorf`, not a `RateLimitError` with a
retry duration of 60 seconds. -/
theorem GetOrderAccrual_429_is_not_rate_limit :
    (GetOrderAccrual "http://accrual" tooManyRequestsHttp rejectingUnmarshal
        "4561261212345467").result
      = Except.error (GoError.errorf
          "unexpected status code 429: No more than 20 requests per minute allowed")
    ∧ (GetOrderAccrual "http://accrual" tooManyRequestsHttp rejectingUnmarshal
        "4561261212345467").result
      ≠ Except.error (GoError.rateLimit 60000000000) := by
  constructor
  · rfl
  · intro h
    have h1 : (GetOrderAccrual "http://accrual" tooManyRequestsHttp rejectingUnmarshal
        "4561261212345467").result
      = Except.error (GoError.errorf
          "unexpected status code 429: No more than 20 requests per minute allowed") := rfl
    rw [h1] at h
    cases h

/-- C15, amended: when the accrual service answers HTTP 429, with whatever header,
`GetOrderAccrual` returns no result and the error "unexpected status code 429: <body>"
made with `fmt.Errorf`, as for any other unexpected status; the `Retry-After` header is
not read, and no call of `GetOrderAccrual` returns a `RateLimitError`. -/
theorem GetOrderAccrual_429_unexpected_status (baseURL : String) (http : String → HttpOutcome)
    (unmarshal : String → Except GoError AccrualResponse) (orderNumber : String) :
    (∀ header body, orderNumber ≠ "" →
        http (baseURL ++ "/api/orders/" ++ orderNumber) = HttpOutcome.response 429 header body →
        (GetOrderAccrual baseURL http unmarshal orderNumber).result
          = Except.error (GoError.errorf ("unexpected status code 429: " ++ body)))
      ∧ (∀ d, (GetOrderAccrual baseURL http unmarshal orderNumber).result
          ≠ Except.error (GoError.rateLimit d)) := by
  constructor
  · intro header body hne hresp
    have hs : toString (429 : Nat) = "429" := by decide
    have hm : "unexpected status code " ++ toString (429 : Nat) ++ ": " ++ body
        = "unexpected status code 429: " ++ body := by
      rw [hs]
      apply String.ext
      simp [String.data_append]
    simp only [GetOrderAccrual, hne, if_false, hresp]
    rw [← hm]
    rfl
  · intro d
    unfold GetOrderAccrual
    by_cases hne : orderNumber = ""
    · simp [hne]
    · simp only [hne, if_false]
      cases http (baseURL ++ "/api/orders/" ++ orderNumber) with
      | getFailed err => simp
      | readFailed c h err => simp
      | response c h b =>
        simp only
        split_ifs
        · cases unmarshal b <;> simp
        · simp
        · simp
        · simp

theorem GetOrderAccrual_429_unexpected_status_witness :
    ("4561261212345467" : String) ≠ ""
      ∧ tooManyRequestsHttp ("http://accrual" ++ "/api/orders/" ++ "4561261212345467")
          = HttpOutcome.response 429 [("Content-Type", "text/plain"), ("Retry-After", "60")]
              "No more than 20 requests per minute allowed"
      ∧ (GetOrderAccrual "http://accrual" tooManyRequestsHttp rejectingUnmarshal
          "4561261212345467").result
        = Except.error (GoError.errorf
            ("unexpected status code 429: " ++ "No more than 20 requests per minute allowed")) :=
  ⟨by decide, rfl,
    (GetOrderAccrual_429_unexpected_status "http://accrual" tooManyRequestsHttp
      rejectingUnmarshal "4561261212345467").1 _ _ (by decide) rfl⟩

/-- C16: for every response whose status code is not 200, 204 or 404, `GetOrderAccrual`
returns no result and the error "unexpected status code <code>: <body>"; its text
begins with "unexpected status code 429" for a 429 response and with "unexpected status
code 500" for a 500 response; a 200 response whose body does not decode and a 404
response give no result and an error as well. -/
theorem GetOrderAccrual_unexpected_status (baseURL : String) (http : String → HttpOutcome)
    (unmarshal : String → Except GoError AccrualResponse) (orderNumber : String)
    (hne : orderNumber ≠ "") :
    (∀ statusCode header body,
        http (baseURL ++ "/api/orders/" ++ orderNumber)
          = HttpOutcome.response statusCode header body →
        statusCode ≠ 200 → statusCode ≠ 204 → statusCode ≠ 404 →
        (GetOrderAccrual baseURL http unmarshal orderNumber).result
          = Except.error (GoError.errorf
              ("unexpected status code " ++ toString statusCode ++ ": " ++ body)))
      ∧ (∀ body, "unexpected status code 429".data
          <+: ("unexpected status code " ++ toString (429 : Nat) ++ ": " ++ body).data)
      ∧ (∀ body, "unexpected status code 500".data
          <+: ("unexpected status code " ++ toString (500 : Nat) ++ ": " ++ body).data)
      ∧ (∀ header body err,
        http (baseURL ++ "/api/orders/" ++ orderNumber) = HttpOutcome.response 200 header body →
        unmarshal body = Except.error err →
        (GetOrderAccrual baseURL http unmarshal orderNumber).result
          = Except.error (GoError.wrapf "failed to decode response" err))
      ∧ (∀ header body,
        http (baseURL ++ "/api/orders/" ++ orderNumber) = HttpOutcome.response 404 header body →
        (GetOrderAccrual baseURL http unmarshal orderNumber).result
          = Except.error (GoError.errorf
              ("check accrual system URL configuration: "
                ++ (baseURL ++ "/api/orders/" ++ orderNumber) ++ " returned 404"))) := by
  refine ⟨?_, ?_, ?_, ?_, ?_⟩
  · intro statusCode header body hresp h200 h204 h404
    simp only [GetOrderAccrual, hne, if_false, hresp, h200, h204, h404]
  · intro body
    rw [unexpected_status_message]
    have hs : toString (429 : Nat) = "429" := by decide
    rw [hs]
    exact ⟨": ".data ++ body.data, by simp⟩
  · intro body
    rw [unexpected_status_message]
    have hs : toString (500 : Nat) = "500" := by decide
    rw [hs]
    exact ⟨": ".data ++ body.data, by simp⟩
  · intro header body err hresp hdec
    simp only [GetOrderAccrual, hne, if_false, hresp, hdec, if_true]
  · intro header body hresp
    have h1 : (404 : Nat) ≠ 200 := by decide
    have h2 : (404 : Nat) ≠ 204 := by decide
    simp only [GetOrderAccrual, hne, if_false, hresp, h1, h2, if_true]

theorem GetOrderAccrual_unexpected_status_witness :
    ("4561261212345467" : String) ≠ ""
      ∧ (GetOrderAccrual "http://accrual" serverErrorHttp rejectingUnmarshal
          "4561261212345467").result
        = Except.error (GoError.errorf ("unexpected status code " ++ toString (500 : Nat)
            ++ ": " ++ ""))
      ∧ "unexpected status code 500".data
          <+: ("unexpected status code " ++ toString (500 : Nat) ++ ": " ++ "").data :=
  ⟨by decide,
    (GetOrderAccrual_unexpected_status "http://accrual" serverErrorHttp rejectingUnmarshal
      "4561261212345467" (by decide)).1 500 [] "" rfl (by decide) (by decide) (by decide),
    (GetOrderAccrual_unexpected_status "http://accrual" serverErrorHttp rejectingUnmarshal
      "4561261212345467" (by decide)).2.2.1 ""⟩

/-- C17: called with the empty order number, `GetOrderAccrual` returns no result and the
error "order number cannot be empty", and requests no URL. -/
theorem GetOrderAccrual_empty_order_number (baseURL : String) (http : String → HttpOutcome)
    (unmarshal : String → Except GoError AccrualResponse) :
    (GetOrderAccrual baseURL http unmarshal "").result
        = Except.error (GoError.errorf "order number cannot be empty")
      ∧ (GetOrderAccrual baseURL http unmarshal "").requests = [] := by
  constructor <;> rfl

/-- C18: for every non-empty order number, when the response has status 204,
`GetOrderAccrual` returns a nil result and a nil error, whatever the header and the
body, after the one request of the order's URL. -/
theorem GetOrderAccrual_no_content (baseURL : String) (http : String → HttpOutcome)
    (unmarshal : String → Except GoError AccrualResponse) (orderNumber : String)
    (header : List (String × String)) (body : String) (hne : orderNumber ≠ "")
    (hresp : http (baseURL ++ "/api/orders/" ++ orderNumber)
      = HttpOutcome.response 204 header body) :
    (GetOrderAccrual baseURL http unmarshal orderNumber).result = Except.ok none
      ∧ (GetOrderAccrual baseURL http unmarshal orderNumber).requests
          = [baseURL ++ "/api/orders/" ++ orderNumber] := by
  have h1 : (204 : Nat) ≠ 200 := by decide
  constructor <;> simp only [GetOrderAccrual, hne, if_false, hresp, h1, if_true]

theorem GetOrderAccrual_no_content_witness :
    ("4561261212345467" : String) ≠ ""
      ∧ (GetOrderAccrual "http://accrual"
          (fun _ => HttpOutcome.response 204 [] "not yet registered") rejectingUnmarshal
          "4561261212345467").result = Except.ok none
      ∧ (GetOrderAccrual "http://accrual"
          (fun _ => HttpOutcome.response 204 [] "not yet registered") rejectingUnmarshal
          "4561261212345467").requests
        = ["http://accrual" ++ "/api/orders/" ++ "4561261212345467"] :=
  ⟨by decide,
    GetOrderAccrual_no_content "http://accrual"
      (fun _ => HttpOutcome.response 204 [] "not yet registered") rejectingUnmarshal
      "4561261212345467" [] "not yet registered" (by decide) rfl⟩

/-! ## OrderProcessor.processOrders: lemmas on the working set -/

theorem mem_setPending (l : List (String × Int)) (k : String) (t : Int) :
    (k, t) ∈ setPending l k t := by
  induction l with
  | nil => simp [setPending]
  | cons e rest ih =>
    obtain ⟨k1, t1⟩ := e
    by_cases h : k1 = k <;> simp [setPending, h, ih]

theorem mem_setPending_of_ne (l : List (String × Int)) (k : String) (t : Int)
    (e : String × Int) (he : e ∈ l) (hne : e.1 ≠ k) : e ∈ setPending l k t := by
  induction l with
  | nil => cases he
  | cons x rest ih =>
    obtain ⟨k1, t1⟩ := x
    by_cases h : k1 = k
    · simp only [setPending, h, if_true]
      rcases List.mem_cons.mp he with h1 | h1
      · exfalso
        apply hne
        rw [h1]
        exact h
      · exact List.mem_cons_of_mem _ h1
    · simp only [setPending, h, if_false]
      rcases List.mem_cons.mp he with h1 | h1
      · rw [h1]; exact List.mem_cons_self _ _
      · exact List.mem_cons_of_mem _ (ih h1)

theorem mem_deletePending_of_ne (l : List (String × Int)) (k : String) (e : String × Int)
    (he : e ∈ l) (hne : e.1 ≠ k) : e ∈ deletePending l k := by
  simp only [deletePending, List.mem_filter]
  exact ⟨he, by simpa using hne⟩

/-- What one pass of the loop body can do to `pending`: nothing, delete the visited
order, or set the time of the visited order. -/
theorem pollOne_pending_cases (env : Nat → PollEnv) (p : Processor) (m : String)
    (lastCheck : Int) :
    (pollOne env p m lastCheck).pending = p.pending
      ∨ (pollOne env p m lastCheck).pending = deletePending p.pending m
      ∨ ∃ t, (pollOne env p m lastCheck).pending = setPending p.pending m t := by
  unfold pollOne
  by_cases hc : p.crashed = true
  · left; simp [hc]
  by_cases hd : p.now - lastCheck < 5 * second
  · left; simp [hc, hd]
  simp only [hc, hd, Bool.false_eq_true, if_false]
  by_cases hp : (checkOrder p.db m (env p.polls).settlement (env p.polls).faults).panicked
      = true
  · left; simp [hp]
  simp only [hp, Bool.false_eq_true, if_false]
  cases he : (checkOrder p.db m (env p.polls).settlement (env p.polls).faults).err with
  | some e => left; cases e <;> rfl
  | none =>
    simp only
    cases hg : GetOrder (checkOrder p.db m (env p.polls).settlement (env p.polls).faults).db m
        (env p.polls).tickGetOrder with
    | error e => left; rfl
    | ok r =>
      cases r with
      | none => left; rfl
      | some order =>
        simp only
        split_ifs
        · right; left; rfl
        · right; right; exact ⟨_, rfl⟩

theorem pollOne_mem_other (env : Nat → PollEnv) (p : Processor) (m : String) (lastCheck : Int)
    (e : String × Int) (he : e ∈ p.pending) (hne : e.1 ≠ m) :
    e ∈ (pollOne env p m lastCheck).pending := by
  rcases pollOne_pending_cases env p m lastCheck with h | h | ⟨t, h⟩
  · rw [h]; exact he
  · rw [h]; exact mem_deletePending_of_ne _ _ _ he hne
  · rw [h]; exact mem_setPending_of_ne _ _ _ _ he hne

theorem foldl_pollOne_mem_other (env : Nat → PollEnv) (entries : List (String × Int))
    (q : Processor) (e : String × Int) (he : e ∈ q.pending)
    (hne : ∀ x ∈ entries, x.1 ≠ e.1) :
    e ∈ (entries.foldl (fun s x => pollOne env s x.1 x.2) q).pending := by
  induction entries generalizing q with
  | nil => exact he
  | cons x rest ih =>
    simp only [List.foldl_cons]
    apply ih
    · exact pollOne_mem_other env q x.1 x.2 e he
        (fun h => hne x (List.mem_cons_self _ _) h.symm)
    · intro y hy
      exact hne y (List.mem_cons_of_mem _ hy)

/-- The loop body on an order that is due, when the accrual client reports no content,
the `GetOrder` call of `processOrders` succeeds and the stored status is not terminal. -/
theorem pollOne_unknown (env : Nat → PollEnv) (q : Processor) (n : String) (lastCheck : Int)
    (o : Order) (hc : q.crashed = false) (hdue : 5 * second ≤ q.now - lastCheck)
    (hs : (env q.polls).settlement = Except.ok none)
    (hg : failsAt (env q.polls).tickGetOrder 0 = false)
    (ho : selectOrder q.db n = some o)
    (hnt : ¬ (o.Status = StatusProcessed ∨ o.Status = StatusInvalid)) :
    pollOne env q n lastCheck
      = { q with
          polls := q.polls + 1
          now := q.now + (env q.polls).took
          log := q.log ++ [StoreCall.GetOrderAccrual n q.now] ++ [StoreCall.GetOrder n false]
          pending := setPending q.pending n (q.now + (env q.polls).took) } := by
  have hd : ¬ (q.now - lastCheck < 5 * second) := not_lt.mpr hdue
  simp only [pollOne, hc, hd, hs, checkOrder, GetOrder, hg, ho, hnt, Bool.false_eq_true,
    if_false, List.append_assoc, List.singleton_append, List.cons_append, List.nil_append]

theorem tick_unknown_aux (env : Nat → PollEnv) (p : Processor)
    (before after : List (String × Int)) (n : String) (lastCheck : Int) (o : Order)
    (q : Processor) (hq : before.foldl (fun s e => pollOne env s e.1 e.2) p = q)
    (hpending : p.pending = before ++ (n, lastCheck) :: after)
    (hafter : ∀ e ∈ after, e.1 ≠ n)
    (hc : q.crashed = false) (hdue : 5 * second ≤ q.now - lastCheck)
    (hs : (env q.polls).settlement = Except.ok none)
    (hg : failsAt (env q.polls).tickGetOrder 0 = false)
    (ho : selectOrder q.db n = some o)
    (hnt : o.Status ≠ StatusProcessed ∧ o.Status ≠ StatusInvalid) :
    (∀ (db : DB) (fs : CheckFaults),
        checkOrder db n (Except.ok none) fs = CheckResult.mk none false db [])
      ∧ (pollOne env q n lastCheck).db = q.db
      ∧ selectOrder (pollOne env q n lastCheck).db n = some o
      ∧ (n, q.now + (env q.polls).took) ∈ (tick env p).pending := by
  have hnt1 : ¬ (o.Status = StatusProcessed ∨ o.Status = StatusInvalid) := by
    intro h
    rcases h with h | h
    · exact hnt.1 h
    · exact hnt.2 h
  have hpoll := pollOne_unknown env q n lastCheck o hc hdue hs hg ho hnt1
  refine ⟨?_, ?_, ?_, ?_⟩
  · intro db fs
    simp only [checkOrder]
  · rw [hpoll]
  · rw [hpoll]; exact ho
  · have hlen : ¬ (p.pending.length = 0) := by
      rw [hpending]; simp
    simp only [tick, hlen, if_false]
    rw [hpending, List.foldl_append, List.foldl_cons, hq]
    apply foldl_pollOne_mem_other
    · rw [hpoll]
      exact mem_setPending _ _ _
    · intro x hx
      exact hafter x hx

/-! ## OrderProcessor.processOrders: claims on one tick -/

/-- When the accrual client reports no content for an order (nil response, nil error),
`checkOrder` makes no store call and leaves the database as it is, so the stored status
stays what it was; and a tick that reaches the order when it is due, stored with a status
that is not terminal, and whose `GetOrder` call for it succeeds, leaves the database
alone and ends with the order in `pending`, its time being the clock reading right after
the poll. -/
theorem tick_unknown_keeps_order (env : Nat → PollEnv) (p : Processor)
    (before after : List (String × Int)) (n : String) (lastCheck : Int) (o : Order)
    (hpending : p.pending = before ++ (n, lastCheck) :: after)
    (hafter : ∀ e ∈ after, e.1 ≠ n)
    (hc : (before.foldl (fun s e => pollOne env s e.1 e.2) p).crashed = false)
    (hdue : 5 * second ≤ (before.foldl (fun s e => pollOne env s e.1 e.2) p).now - lastCheck)
    (hs : (env (before.foldl (fun s e => pollOne env s e.1 e.2) p).polls).settlement
      = Except.ok none)
    (hg : failsAt (env (before.foldl (fun s e => pollOne env s e.1 e.2) p).polls).tickGetOrder 0
      = false)
    (ho : selectOrder (before.foldl (fun s e => pollOne env s e.1 e.2) p).db n = some o)
    (hnt : o.Status ≠ StatusProcessed ∧ o.Status ≠ StatusInvalid) :
    (∀ (db : DB) (fs : CheckFaults),
        checkOrder db n (Except.ok none) fs = CheckResult.mk none false db [])
      ∧ (pollOne env (before.foldl (fun s e => pollOne env s e.1 e.2) p) n lastCheck).db
          = (before.foldl (fun s e => pollOne env s e.1 e.2) p).db
      ∧ selectOrder
          (pollOne env (before.foldl (fun s e => pollOne env s e.1 e.2) p) n lastCheck).db n
          = some o
      ∧ (n, (before.foldl (fun s e => pollOne env s e.1 e.2) p).now
            + (env (before.foldl (fun s e => pollOne env s e.1 e.2) p).polls).took)
          ∈ (tick env p).pending := by
  exact tick_unknown_aux env p before after n lastCheck o _ rfl hpending hafter hc hdue hs hg
    ho hnt

theorem tick_unknown_keeps_order_witness :
    (run noContentEnv twoDueOrders [Event.tick]).db = twoOrdersDB
      ∧ ("79927398713", (5000000000 : Int)) ∈ (tick noContentEnv twoDueOrders).pending := by
  have h := tick_unknown_keeps_order noContentEnv twoDueOrders [("4561261212345467", 0)] []
    "79927398713" 0 (Order.mk "79927398713" 1 StatusRegistered none) rfl
    (by intro e he; cases he) (by decide!) (by decide!) rfl (by decide!)
    (by decide!) (by decide)
  refine ⟨by decide!, ?_⟩
  have ht := h.2.2.2
  have hnow : (List.foldl (fun s e => pollOne noContentEnv s e.1 e.2) twoDueOrders
      [("4561261212345467", 0)]).now
      + (noContentEnv (List.foldl (fun s e => pollOne noContentEnv s e.1 e.2) twoDueOrders
          [("4561261212345467", 0)]).polls).took = (5000000000 : Int) := by decide!
  rw [hnow] at ht
  exact ht

/-- C11 at its failing input: order 4561261212345467 is received at time 0, the accrual
service answers HTTP 204 (`GetOrderAccrual` returns a nil response and a nil error), and
the `GetOrder` call that `processOrders` makes after `checkOrder` fails.  After the tick
at five seconds the database is as before and the order is in `pending`, but with the
time 0 of its receipt and not the present time of five seconds; the tick one second
later polls the order again. -/
theorem tick_unknown_get_order_error_keeps_old_check_time :
    (GetOrderAccrual "http://accrual" noContentHttp rejectingUnmarshal
        "4561261212345467").result = Except.ok none
      ∧ (run noContentGetOrderFailsEnv (NewOrderProcessor sampleDB 0) firstPollSchedule).pending
        = [("4561261212345467", 0)]
      ∧ (run noContentGetOrderFailsEnv (NewOrderProcessor sampleDB 0) firstPollSchedule).now
        = 5000000000
      ∧ (run noContentGetOrderFailsEnv (NewOrderProcessor sampleDB 0) firstPollSchedule).db
        = sampleDB
      ∧ (run noContentGetOrderFailsEnv (NewOrderProcessor sampleDB 0) nextTickSchedule).log
        = [StoreCall.GetOrderAccrual "4561261212345467" 5000000000,
            StoreCall.GetOrder "4561261212345467" true,
            StoreCall.GetOrderAccrual "4561261212345467" 6000000000,
            StoreCall.GetOrder "4561261212345467" true] := by
  refine ⟨rfl, ?_, ?_, ?_, ?_⟩ <;> decide!

/-- C12 at its failing input: order 4561261212345467 is received at time 0, the accrual
service answers HTTP 500, and the first tick at which the order is due comes at five
seconds.  After that tick the order is still in `pending`, but with the time 0 of its
receipt and not the present time of five seconds. -/
theorem tick_error_keeps_old_check_time :
    (run serverErrorEnv (NewOrderProcessor sampleDB 0) firstPollSchedule).pending
        = [("4561261212345467", 0)]
      ∧ (run serverErrorEnv (NewOrderProcessor sampleDB 0) firstPollSchedule).now = 5000000000
      ∧ (run serverErrorEnv (NewOrderProcessor sampleDB 0) firstPollSchedule).log
        = [StoreCall.GetOrderAccrual "4561261212345467" 5000000000] := by
  decide!

/-- C13 at its failing input: order 4561261212345467 is received at time 0, the accrual
service answers HTTP 500, and ticks come at five and at six seconds.  The accrual
client is called for the order at both ticks, one second apart. -/
theorem settlement_calls_one_second_apart :
    (run serverErrorEnv (NewOrderProcessor sampleDB 0) nextTickSchedule).log
      = [StoreCall.GetOrderAccrual "4561261212345467" 5000000000,
          StoreCall.GetOrderAccrual "4561261212345467" 6000000000] := by
  decide!

theorem UpdateBalance_orders (db : DB) (u : Int) (delta : ℚ) (f : Fault) :
    (UpdateBalance db u delta f).2.orders = db.orders := by
  rcases UpdateBalance_cases db u delta f with ⟨_, hd⟩ | ⟨row, _, _, heq⟩
  · rw [hd]
  · rw [heq]

/-- The orders after `checkOrder` for order `m`: as before, or with the status and
accrual of the rows of `m` overwritten. -/
theorem checkOrder_orders_cases (db : DB) (m : String) (settlement : Settlement)
    (fs : CheckFaults) :
    (checkOrder db m settlement fs).db.orders = db.orders
      ∨ ∃ st av, (checkOrder db m settlement fs).db.orders = db.orders.map (setStatus m st av) := by
  cases settlement with
  | error err => left; rfl
  | ok resp =>
    cases resp with
    | none => left; rfl
    | some a =>
      rcases checkOrder_response db m a fs with
        ⟨err, _, hres⟩ | ⟨o, _, hupd, ⟨_, hres⟩ | ⟨_, _, hres⟩ | ⟨_, _, hres⟩⟩
      · left; rw [hres]
      · right; exact ⟨_, _, by rw [hres, hupd]⟩
      · right; exact ⟨_, _, by rw [hres, hupd]⟩
      · right
        refine ⟨a.Status, (if a.Accrual > 0 then some a.Accrual else none), ?_⟩
        rw [hres]
        simp only
        rw [UpdateBalance_orders, hupd]

theorem find_setStatus_other (orders : List Order) (m n : String) (st : OrderStatus)
    (av : Option ℚ) (hne : m ≠ n) :
    (orders.map (setStatus m st av)).find? (fun o => o.Number == n)
      = orders.find? (fun o => o.Number == n) := by
  induction orders with
  | nil => rfl
  | cons o rest ih =>
    by_cases hm : o.Number = m
    · have hn : ¬ (o.Number = n) := fun h => hne (hm.symm.trans h)
      simp only [List.map_cons, setStatus, hm, beq_self_eq_true, if_true, List.find?_cons]
      have hb : (m == n) = false := by simpa using hne
      have hb1 : (o.Number == n) = false := by simpa using hn
      simp only [hb, hb1]
      exact ih
    · have hs : setStatus m st av o = o := by simp [setStatus, hm]
      simp only [List.map_cons, hs, List.find?_cons]
      cases (o.Number == n)
      · exact ih
      · rfl

theorem checkOrder_selectOrder_other (db : DB) (m n : String) (settlement : Settlement)
    (fs : CheckFaults) (hne : m ≠ n) :
    selectOrder (checkOrder db m settlement fs).db n = selectOrder db n := by
  unfold selectOrder
  rcases checkOrder_orders_cases db m settlement fs with h | ⟨st, av, h⟩
  · rw [h]
  · rw [h]; exact find_setStatus_other db.orders m n st av hne

/-- The database after one pass of the loop body: as before, or as `checkOrder` left
it. -/
theorem pollOne_db_cases (env : Nat → PollEnv) (p : Processor) (m : String) (lastCheck : Int) :
    (pollOne env p m lastCheck).db = p.db
      ∨ (pollOne env p m lastCheck).db
          = (checkOrder p.db m (env p.polls).settlement (env p.polls).faults).db := by
  unfold pollOne
  by_cases hc : p.crashed = true
  · left; simp [hc]
  by_cases hd : p.now - lastCheck < 5 * second
  · left; simp [hc, hd]
  right
  simp only [hc, hd, Bool.false_eq_true, if_false]
  by_cases hp : (checkOrder p.db m (env p.polls).settlement (env p.polls).faults).panicked
      = true
  · simp [hp]
  simp only [hp, Bool.false_eq_true, if_false]
  cases he : (checkOrder p.db m (env p.polls).settlement (env p.polls).faults).err with
  | some e => cases e <;> rfl
  | none =>
    simp only
    cases hg : GetOrder (checkOrder p.db m (env p.polls).settlement (env p.polls).faults).db m
        (env p.polls).tickGetOrder with
    | error e => rfl
    | ok r =>
      cases r with
      | none => rfl
      | some order =>
        simp only
        split_ifs <;> rfl

theorem pollOne_selectOrder_other (env : Nat → PollEnv) (p : Processor) (m n : String)
    (lastCheck : Int) (hne : m ≠ n) :
    selectOrder (pollOne env p m lastCheck).db n = selectOrder p.db n := by
  rcases pollOne_db_cases env p m lastCheck with h | h
  · rw [h]
  · rw [h]; exact checkOrder_selectOrder_other p.db m n _ _ hne

theorem foldl_pollOne_selectOrder_other (env : Nat → PollEnv) (entries : List (String × Int))
    (q : Processor) (n : String) (hne : ∀ e ∈ entries, e.1 ≠ n) :
    selectOrder (entries.foldl (fun s e => pollOne env s e.1 e.2) q).db n
      = selectOrder q.db n := by
  induction entries generalizing q with
  | nil => rfl
  | cons x rest ih =>
    simp only [List.foldl_cons]
    rw [ih (pollOne env q x.1 x.2) (fun e he => hne e (List.mem_cons_of_mem _ he))]
    exact pollOne_selectOrder_other env q x.1 n x.2 (hne x (List.mem_cons_self _ _))

/-! ## Stored order status: claims -/

/-- C20 at its failing input: for the stored order 4561261212345467 and the response
REGISTERED, `checkOrder` passes the status REGISTERED to `UpdateOrderStatus`, the stored
status becomes REGISTERED, and REGISTERED is none of NEW, PROCESSING, INVALID,
PROCESSED. -/
theorem checkOrder_persists_registered :
    (checkOrder sampleDB "4561261212345467" (Except.ok (some registeredResponse))
        (CheckFaults.mk none none none)).calls
      = [StoreCall.UpdateOrderStatus "4561261212345467" "REGISTERED" 0 none]
    ∧ (selectOrder (checkOrder sampleDB "4561261212345467"
          (Except.ok (some registeredResponse)) (CheckFaults.mk none none none)).db
        "4561261212345467").map (fun o => o.Status) = some "REGISTERED"
    ∧ "REGISTERED" ∉ [StatusRegistered, StatusProcessing, StatusInvalid, StatusProcessed] := by
  decide

/-! ## Order intake: claims -/

/-- C22: `AddOrder` is a total function that returns at once.  On a queue holding fewer
than 100 numbers it appends the number at the tail and touches nothing else; on a queue
holding 100 numbers or more it leaves the processor as it is, so the number is dropped.
The loop receives from the head of the queue: a number added to an empty queue is the
one the next receive moves into `pending`. -/
theorem AddOrder_appends_or_drops (p : Processor) (n : String) :
    (p.ordersChan.length < 100 →
        (AddOrder p n).ordersChan = p.ordersChan ++ [n]
          ∧ (AddOrder p n).db = p.db ∧ (AddOrder p n).pending = p.pending)
      ∧ (100 ≤ p.ordersChan.length → AddOrder p n = p)
      ∧ (∀ (env : Nat → PollEnv) (m : String) (rest : List String),
          p.ordersChan = m :: rest → p.ordersChan.length < 100 →
          p.stopped = false → p.crashed = false →
          (step env (AddOrder p n) Event.recv).ordersChan = rest ++ [n]
            ∧ (step env (AddOrder p n) Event.recv).pending = setPending p.pending m p.now)
      ∧ (∀ env : Nat → PollEnv, p.ordersChan = [] → p.stopped = false → p.crashed = false →
          (step env (AddOrder p n) Event.recv).ordersChan = []
            ∧ (step env (AddOrder p n) Event.recv).pending = setPending p.pending n p.now) := by
  refine ⟨?_, ?_, ?_, ?_⟩
  · intro h
    simp [AddOrder, h]
  · intro h
    have h1 : ¬ (p.ordersChan.length < 100) := not_lt.mpr h
    simp [AddOrder, h1]
  · intro env m rest hq hlen hs hc
    have ha : AddOrder p n = { p with ordersChan := p.ordersChan ++ [n] } := by
      simp only [AddOrder, hlen, if_true]
    rw [ha]
    simp [step, hs, hc, hq]
  · intro env hq hs hc
    simp [AddOrder, step, hs, hc, hq]

theorem AddOrder_appends_or_drops_witness :
    (NewOrderProcessor sampleDB 0).ordersChan.length < 100
      ∧ (AddOrder (NewOrderProcessor sampleDB 0) "4561261212345467").ordersChan
          = [] ++ ["4561261212345467"]
      ∧ (AddOrder (NewOrderProcessor sampleDB 0) "4561261212345467").db = sampleDB
      ∧ (AddOrder (NewOrderProcessor sampleDB 0) "4561261212345467").pending = [] :=
  ⟨by decide,
    (AddOrder_appends_or_drops (NewOrderProcessor sampleDB 0) "4561261212345467").1
      (by decide)⟩

theorem selectOrder_none_iff (db : DB) (n : String) :
    selectOrder db n = none ↔ ∀ o ∈ db.orders, o.Number ≠ n := by
  simp [selectOrder, List.find?_eq_none]

/-- C25: `SaveOrder` keeps order numbers unique and owners fixed.  For a number that is
not stored it appends the one order of that number, that user and status NEW and
returns nil; for a stored number it returns `ErrOrderExistsForUser` when the stored
owner is the user and `ErrOrderExistsForOther` otherwise, with the database unchanged;
whatever it returns, the stored numbers stay pairwise distinct and every order stored
before is still found unchanged under its number. -/
theorem SaveOrder_keeps_numbers_unique (db : DB) (userID : Int) (number : String) :
    (selectOrder db number = none →
        SaveOrder db userID number none
          = (none,
              DB.mk (db.orders ++ [Order.mk number userID StatusRegistered none]) db.balances
                db.withdrawals))
      ∧ (∀ (existing : Order) (f : Fault), failsAt f 0 = false →
          selectOrder db number = some existing →
          SaveOrder db userID number f
            = (some (if existing.UserID = userID then apperrors.ErrOrderExistsForUser
                else apperrors.ErrOrderExistsForOther), db))
      ∧ (∀ f : Fault, (db.orders.map (fun o => o.Number)).Nodup →
          ((SaveOrder db userID number f).2.orders.map (fun o => o.Number)).Nodup)
      ∧ (∀ (f : Fault) (n : String) (o : Order), selectOrder db n = some o →
          selectOrder (SaveOrder db userID number f).2 n = some o) := by
  refine ⟨?_, ?_, ?_, ?_⟩
  · intro h
    simp [SaveOrder, failsAt, h]
  · intro existing f hf h
    by_cases hu : existing.UserID = userID <;> simp [SaveOrder, hf, h, hu]
  · intro f hnd
    unfold SaveOrder
    by_cases h0 : failsAt f 0 = true
    · simpa [h0] using hnd
    simp only [h0, Bool.false_eq_true, if_false]
    cases hs : selectOrder db number with
    | some existing =>
      simp only
      split_ifs <;> exact hnd
    | none =>
      simp only
      by_cases h1 : failsAt f 1 = true
      · simpa [h1] using hnd
      simp only [h1, Bool.false_eq_true, if_false, List.map_append, List.map_cons, List.map_nil]
      rw [List.nodup_append]
      refine ⟨hnd, List.nodup_singleton _, ?_⟩
      intro x hx hx1
      simp only [List.mem_singleton] at hx1
      rw [List.mem_map] at hx
      obtain ⟨o, ho, hox⟩ := hx
      exact (selectOrder_none_iff db number).mp hs o ho (hox.trans hx1)
  · intro f n o ho
    unfold SaveOrder
    by_cases h0 : failsAt f 0 = true
    · simpa [h0] using ho
    simp only [h0, Bool.false_eq_true, if_false]
    cases hs : selectOrder db number with
    | some existing =>
      simp only
      split_ifs <;> exact ho
    | none =>
      simp only
      by_cases h1 : failsAt f 1 = true
      · simpa [h1] using ho
      simp only [h1, Bool.false_eq_true, if_false]
      unfold selectOrder at ho ⊢
      rw [List.find?_append, ho]
      rfl

theorem SaveOrder_keeps_numbers_unique_witness :
    selectOrder sampleDB "79927398713" = none
      ∧ SaveOrder sampleDB 2 "79927398713" none
        = (none,
            DB.mk (sampleDB.orders ++ [Order.mk "79927398713" 2 StatusRegistered none])
              sampleDB.balances sampleDB.withdrawals)
      ∧ SaveOrder sampleDB 2 "4561261212345467" none
        = (some apperrors.ErrOrderExistsForOther, sampleDB) := by
  have h := SaveOrder_keeps_numbers_unique sampleDB 2 "79927398713"
  have h1 := (SaveOrder_keeps_numbers_unique sampleDB 2 "4561261212345467").2.1 sampleOrder
    none rfl rfl
  exact ⟨by decide, h.1 (by decide), h1⟩

/-- C24: `SubmitOrder` hands an order to the processor exactly when the number passes
`ValidateLuhn` and `SaveOrder` returns nil.  A number that fails the check gives
`ErrInvalidOrder` without any call; when `SaveOrder` fails, its error is returned as
`ErrOrderExistsForUser` or `ErrOrderExistsForOther` when it is one of them and wrapped
otherwise, and `AddOrder` is not called; when `SaveOrder` succeeds, `AddOrder` is called
once with that number and nil is returned. -/
theorem SubmitOrder_hands_over (p : Processor) (userID : Int) (orderNumber : String)
    (f : Fault) :
    (ValidateLuhn orderNumber = false →
        (SubmitOrder p userID orderNumber f).err = some apperrors.ErrInvalidOrder
          ∧ (SubmitOrder p userID orderNumber f).calls = [])
      ∧ (∀ err, ValidateLuhn orderNumber = true →
          (SaveOrder p.db userID orderNumber f).1 = some err →
          (SubmitOrder p userID orderNumber f).calls
              = [SubmitCall.SaveOrder userID orderNumber (some err)]
            ∧ (SubmitOrder p userID orderNumber f).processor.ordersChan = p.ordersChan
            ∧ (SubmitOrder p userID orderNumber f).err
              = some (if errorsIs err apperrors.ErrOrderExistsForUser then
                    apperrors.ErrOrderExistsForUser
                  else if errorsIs err apperrors.ErrOrderExistsForOther then
                    apperrors.ErrOrderExistsForOther
                  else GoError.wrapf "failed to save order" err))
      ∧ (ValidateLuhn orderNumber = true →
          (SaveOrder p.db userID orderNumber f).1 = none →
          (SubmitOrder p userID orderNumber f).err = none
            ∧ (SubmitOrder p userID orderNumber f).calls
              = [SubmitCall.SaveOrder userID orderNumber none, SubmitCall.AddOrder orderNumber]
            ∧ (SubmitOrder p userID orderNumber f).processor
              = AddOrder
                  (Processor.mk (SaveOrder p.db userID orderNumber f).2 p.ordersChan p.pending
                    p.now p.polls p.log p.stopped p.crashed)
                  orderNumber)
      ∧ (SubmitCall.AddOrder orderNumber ∈ (SubmitOrder p userID orderNumber f).calls ↔
          ValidateLuhn orderNumber = true
            ∧ (SaveOrder p.db userID orderNumber f).1 = none) := by
  have hfail : ∀ err, ValidateLuhn orderNumber = true →
      (SaveOrder p.db userID orderNumber f).1 = some err →
      (SubmitOrder p userID orderNumber f).calls
          = [SubmitCall.SaveOrder userID orderNumber (some err)]
        ∧ (SubmitOrder p userID orderNumber f).processor.ordersChan = p.ordersChan
        ∧ (SubmitOrder p userID orderNumber f).err
          = some (if errorsIs err apperrors.ErrOrderExistsForUser then
                apperrors.ErrOrderExistsForUser
              else if errorsIs err apperrors.ErrOrderExistsForOther then
                apperrors.ErrOrderExistsForOther
              else GoError.wrapf "failed to save order" err) := by
    intro err hl hs
    cases hc : SaveOrder p.db userID orderNumber f with
    | mk e d =>
      rw [hc] at hs
      simp only at hs
      subst hs
      simp only [SubmitOrder, hl, hc, Bool.not_true, Bool.false_eq_true, if_false]
      split_ifs <;> exact ⟨rfl, rfl, rfl⟩
  have hok : ValidateLuhn orderNumber = true →
      (SaveOrder p.db userID orderNumber f).1 = none →
      (SubmitOrder p userID orderNumber f).err = none
        ∧ (SubmitOrder p userID orderNumber f).calls
          = [SubmitCall.SaveOrder userID orderNumber none, SubmitCall.AddOrder orderNumber]
        ∧ (SubmitOrder p userID orderNumber f).processor
          = AddOrder
              (Processor.mk (SaveOrder p.db userID orderNumber f).2 p.ordersChan p.pending
                p.now p.polls p.log p.stopped p.crashed)
              orderNumber := by
    intro hl hs
    cases hc : SaveOrder p.db userID orderNumber f with
    | mk e d =>
      rw [hc] at hs
      simp only at hs
      subst hs
      simp only [SubmitOrder, hl, hc, Bool.not_true, Bool.false_eq_true, if_false]
      trivial
  refine ⟨?_, hfail, hok, ?_⟩
  · intro hl
    simp [SubmitOrder, hl]
  · constructor
    · intro hmem
      by_cases hl : ValidateLuhn orderNumber = true
      · refine ⟨hl, ?_⟩
        cases hs : (SaveOrder p.db userID orderNumber f).1 with
        | none => rfl
        | some err =>
          rw [(hfail err hl hs).1] at hmem
          simp at hmem
      · have hl1 : ValidateLuhn orderNumber = false := by simpa using hl
        simp [SubmitOrder, hl1] at hmem
    · rintro ⟨hl, hs⟩
      rw [(hok hl hs).2.1]
      simp

theorem SubmitOrder_hands_over_witness :
    ValidateLuhn "79927398713" = true
      ∧ (SaveOrder (NewOrderProcessor sampleDB 0).db 1 "79927398713" none).1 = none
      ∧ (SubmitOrder (NewOrderProcessor sampleDB 0) 1 "79927398713" none).err = none
      ∧ (SubmitOrder (NewOrderProcessor sampleDB 0) 1 "79927398713" none).calls
          = [SubmitCall.SaveOrder 1 "79927398713" none, SubmitCall.AddOrder "79927398713"] := by
  have h := (SubmitOrder_hands_over (NewOrderProcessor sampleDB 0) 1 "79927398713" none).2.2.1
    (by decide) (by decide)
  exact ⟨by decide, by decide, h.1, h.2.1⟩

/-! ## Order-number validation: further lemmas and claims -/

theorem luhnLoop_append (parity : Nat) (l1 l2 : List Char) (k acc : Nat) :
    luhnLoop parity k (l1 ++ l2) acc
      = luhnLoop parity (k + l1.length) l2 (luhnLoop parity k l1 acc) := by
  induction l1 generalizing k acc with
  | nil => simp [luhnLoop]
  | cons c cs ih =>
    show luhnLoop parity (k + 1) (cs ++ l2) (acc + luhnDigit parity k c) = _
    rw [ih]
    have e : k + 1 + cs.length = k + (c :: cs).length := by
      simp only [List.length_cons]; omega
    rw [e]
    rfl

theorem luhnLoop_split (parity : Nat) (l1 l2 : List Char) (x : Char) :
    luhnLoop parity 0 (l1 ++ x :: l2) 0
      = luhnLoop parity 0 l1 0 + luhnDigit parity l1.length x
        + luhnLoop parity (l1.length + 1) l2 0 := by
  rw [luhnLoop_append]
  simp only [luhnLoop, Nat.zero_add]
  rw [luhnLoop_acc]

theorem luhnDigit_le (parity i : Nat) (c : Char) (hc : 48 ≤ c.toNat ∧ c.toNat ≤ 57) :
    luhnDigit parity i c ≤ 9 := by
  have h0 : '0'.toNat = 48 := by decide
  simp only [luhnDigit, h0]
  split_ifs <;> omega

theorem luhnDigit_inj (parity i : Nat) (a b : Char) (ha : 48 ≤ a.toNat ∧ a.toNat ≤ 57)
    (hb : 48 ≤ b.toNat ∧ b.toNat ≤ 57) (h : luhnDigit parity i a = luhnDigit parity i b) :
    a = b := by
  have h0 : '0'.toNat = 48 := by decide
  have hn : a.toNat = b.toNat := by
    simp only [luhnDigit, h0] at h
    split_ifs at h <;> omega
  apply Char.ext
  apply UInt32.ext
  exact hn

/-- Prefixing a digit string with the digit 0 leaves the verdict of `ValidateLuhn`. -/
theorem ValidateLuhn_zero_cons (cs : List Char) (hne : cs ≠ [])
    (hdigits : ∀ c ∈ cs, 48 ≤ c.toNat ∧ c.toNat ≤ 57) :
    ValidateLuhn (String.mk ('0' :: cs)) = ValidateLuhn (String.mk cs) := by
  have hm : matchDigits (String.mk cs) = true :=
    (matchDigits_iff (String.mk cs)).mpr ⟨hne, hdigits⟩
  have hm0 : matchDigits (String.mk ('0' :: cs)) = true := by
    apply (matchDigits_iff _).mpr
    refine ⟨by simp, ?_⟩
    intro c hc
    rcases List.mem_cons.mp hc with h | h
    · rw [h]; decide
    · exact hdigits c h
  have h1 := luhnLoop_eq_refSum cs 0
  have h2 := luhnLoop_eq_refSum ('0' :: cs) 0
  simp only [Nat.zero_add] at h1 h2
  have hz : ('0'.toNat - 48) = 0 := by decide
  simp only [ValidateLuhn, hm, hm0, Bool.not_true, Bool.false_eq_true, if_false, h1, h2,
    List.reverse_cons, List.map_append, List.map_cons, List.map_nil, luhnRefSum_snoc, hz]
  simp

/-- C30: prefixing a non-empty digit string with the digit 0 leaves the verdict of
`ValidateLuhn`, and every non-empty string of zeros is accepted. -/
theorem ValidateLuhn_leading_zero (s : String) (hne : s.data ≠ [])
    (hdigits : ∀ c ∈ s.data, 48 ≤ c.toNat ∧ c.toNat ≤ 57) :
    ValidateLuhn ("0" ++ s) = ValidateLuhn s
      ∧ ∀ n, 1 ≤ n → ValidateLuhn (String.mk (List.replicate n '0')) = true := by
  constructor
  · exact ValidateLuhn_zero_cons s.data hne hdigits
  · intro n hn
    induction n with
    | zero => omega
    | succ k ih =>
      by_cases hk : k = 0
      · subst hk; decide
      · have hrep : List.replicate k '0' ≠ [] := by
          intro h
          have := congrArg List.length h
          simp at this
          exact hk this
        have hd : ∀ c ∈ List.replicate k '0', 48 ≤ c.toNat ∧ c.toNat ≤ 57 := by
          intro c hc
          rw [List.eq_of_mem_replicate hc]
          decide
        rw [List.replicate_succ, ValidateLuhn_zero_cons _ hrep hd]
        exact ih (by omega)

theorem ValidateLuhn_leading_zero_witness :
    ("4561261212345467" : String).data ≠ []
      ∧ ValidateLuhn ("0" ++ "4561261212345467") = ValidateLuhn "4561261212345467"
      ∧ ValidateLuhn "04561261212345467" = true
      ∧ ValidateLuhn (String.mk (List.replicate 3 '0')) = true :=
  ⟨by decide,
    (ValidateLuhn_leading_zero "4561261212345467" (by decide) (by decide)).1,
    by decide,
    (ValidateLuhn_leading_zero "4561261212345467" (by decide) (by decide)).2 3 (by decide)⟩

/-- C28: `ValidateLuhn` detects every single-digit error: when it accepts a digit
string, replacing the digit at any position by a different digit gives a string that it
rejects. -/
theorem ValidateLuhn_detects_single_digit_error (s : String) (i : Nat) (c : Char)
    (hacc : ValidateLuhn s = true) (hi : i < s.data.length)
    (hc : 48 ≤ c.toNat ∧ c.toNat ≤ 57) (hne : c ≠ s.data.get ⟨i, hi⟩) :
    ValidateLuhn (String.mk (s.data.set i c)) = false := by
  have hm : matchDigits s = true := by
    by_contra h
    simp [ValidateLuhn, h] at hacc
  obtain ⟨_, hd⟩ := (matchDigits_iff s).mp hm
  have hold : 48 ≤ (s.data.get ⟨i, hi⟩).toNat ∧ (s.data.get ⟨i, hi⟩).toNat ≤ 57 :=
    hd _ (List.get_mem _ _ _)
  have hsplit : s.data = s.data.take i ++ s.data.get ⟨i, hi⟩ :: s.data.drop (i + 1) := by
    have h1 := List.take_append_drop i s.data
    rw [List.drop_eq_getElem_cons hi] at h1
    exact h1.symm
  have hset : s.data.set i c = s.data.take i ++ c :: s.data.drop (i + 1) := by
    rw [List.set_eq_take_append_cons_drop, if_pos hi]
  have hlen : (s.data.set i c).length = s.data.length := by simp
  have hm1 : matchDigits (String.mk (s.data.set i c)) = true := by
    apply (matchDigits_iff _).mpr
    constructor
    · intro h
      have h2 := congrArg List.length h
      rw [hlen] at h2
      simp only [List.length_nil] at h2
      omega
    · intro x hx
      show 48 ≤ x.toNat ∧ x.toNat ≤ 57
      have hx1 : x ∈ s.data.set i c := hx
      rcases List.mem_or_eq_of_mem_set hx1 with h | h
      · exact hd x h
      · rw [h]; exact hc
  have htake : (s.data.take i).length = i := by
    rw [List.length_take]; omega
  have hsumold : luhnLoop (s.data.length % 2) 0 s.data 0
      = luhnLoop (s.data.length % 2) 0 (s.data.take i) 0
        + luhnDigit (s.data.length % 2) i (s.data.get ⟨i, hi⟩)
        + luhnLoop (s.data.length % 2) (i + 1) (s.data.drop (i + 1)) 0 := by
    have h := luhnLoop_split (s.data.length % 2) (s.data.take i) (s.data.drop (i + 1))
      (s.data.get ⟨i, hi⟩)
    rw [← hsplit, htake] at h
    exact h
  have hsumnew : luhnLoop (s.data.length % 2) 0 (s.data.set i c) 0
      = luhnLoop (s.data.length % 2) 0 (s.data.take i) 0
        + luhnDigit (s.data.length % 2) i c
        + luhnLoop (s.data.length % 2) (i + 1) (s.data.drop (i + 1)) 0 := by
    have h := luhnLoop_split (s.data.length % 2) (s.data.take i) (s.data.drop (i + 1)) c
    rw [← hset, htake] at h
    exact h
  have hdiff : luhnDigit (s.data.length % 2) i c
      ≠ luhnDigit (s.data.length % 2) i (s.data.get ⟨i, hi⟩) :=
    fun h => hne (luhnDigit_inj _ _ _ _ hc hold h)
  have hle1 := luhnDigit_le (s.data.length % 2) i c hc
  have hle2 := luhnDigit_le (s.data.length % 2) i (s.data.get ⟨i, hi⟩) hold
  have hzero : luhnLoop (s.data.length % 2) 0 s.data 0 % 10 = 0 := by
    simpa [ValidateLuhn, hm] using hacc
  have hnz : ¬ (luhnLoop (s.data.length % 2) 0 (s.data.set i c) 0 % 10 = 0) := by
    rw [hsumnew]
    rw [hsumold] at hzero
    omega
  simp only [ValidateLuhn, hm1, Bool.not_true, Bool.false_eq_true, if_false, hlen]
  simpa using hnz

theorem ValidateLuhn_detects_single_digit_error_witness :
    ValidateLuhn "4532015112830366" = true
      ∧ ValidateLuhn (String.mk (("4532015112830366" : String).data.set 15 '7')) = false :=
  ⟨by decide,
    ValidateLuhn_detects_single_digit_error "4532015112830366" 15 '7' (by decide) (by decide)
      (by decide) (by decide)⟩

/-! ## SplitString: lemmas -/

theorem take_succ_of_drop {α : Type} (l : List α) (k : Nat) (c : α) (rest : List α)
    (h : l.drop k = c :: rest) : l.take (k + 1) = l.take k ++ [c] := by
  induction l generalizing k with
  | nil => simp at h
  | cons x xs ih =>
    cases k with
    | zero =>
      simp only [List.drop_zero, List.cons.injEq] at h
      simp [h.1]
    | succ k =>
      simp only [List.drop_succ_cons] at h
      simp only [List.take_succ_cons, List.cons_append, ih k h]

theorem slice_snoc {α : Type} (s : List α) (start i : Nat) (c : α) (rest : List α)
    (h : s.drop i = c :: rest) (hsi : start ≤ i) :
    (s.drop start).take (i + 1 - start) = (s.drop start).take (i - start) ++ [c] := by
  have h1 : (s.drop start).drop (i - start) = c :: rest := by
    rw [List.drop_drop]
    have e : start + (i - start) = i := by omega
    rw [e]; exact h
  have e2 : i + 1 - start = (i - start) + 1 := by omega
  rw [e2]
  exact take_succ_of_drop _ _ c rest h1

theorem standardSplit_skip {α : Type} [DecidableEq α] (sep : List α) (k : Nat) (l cur : List α) :
    standardSplit sep k l cur = standardSplit sep 0 (l.drop k) cur := by
  induction k generalizing l with
  | zero => rfl
  | succ k ih =>
    cases l with
    | nil => simp [standardSplit]
    | cons x r =>
      simp only [standardSplit, List.drop_succ_cons]
      exact ih r

theorem isPrefixOf_iff_take {α : Type} [DecidableEq α] (sep l : List α) :
    sep.isPrefixOf l = true ↔ l.take sep.length = sep := by
  rw [List.isPrefixOf_iff_prefix, List.prefix_iff_eq_take]
  exact eq_comm

/-- The loop of `SplitString` from a scanning position agrees with the reference
split of the rest of the text. -/
theorem splitLoop_eq_standardSplit {α : Type} [DecidableEq α] (s sep : List α)
    (hsep : sep.length = 1 ∨ sep.length = 2) (hend : ¬ sep <:+ s) :
    ∀ (fuel i start : Nat) (result : List (List α)), start ≤ i → i < s.length →
      s.length - i < fuel →
      splitLoop s sep fuel i start result
        = SplitOutcome.done
            (result ++ standardSplit sep 0 (s.drop i) ((s.drop start).take (i - start))) := by
  intro fuel
  induction fuel with
  | zero => intro i start result _ _ hf; omega
  | succ fuel ih =>
    intro i start result hsi hi hf
    obtain ⟨c, rest, hdrop⟩ : ∃ c rest, s.drop i = c :: rest := by
      cases h : s.drop i with
      | nil =>
        have := List.drop_eq_nil_iff.mp h
        omega
      | cons c rest => exact ⟨c, rest, rfl⟩
    have hrest : rest = s.drop (i + 1) := by
      have h1 := congrArg (List.drop 1) hdrop
      rw [List.drop_drop] at h1
      simpa using h1.symm
    have hrlen : rest.length = s.length - (i + 1) := by
      rw [hrest, List.length_drop]
    by_cases hlast : i = s.length - 1
    · -- the last byte
      have hrnil : rest = [] := by
        apply List.length_eq_zero.mp
        omega
      have hnp : sep.isPrefixOf (c :: rest) = false := by
        rw [Bool.eq_false_iff]
        intro hp
        rw [isPrefixOf_iff_take] at hp
        apply hend
        rw [hrnil] at hp hdrop
        have hl := congrArg List.length hp
        simp only [List.length_take, List.length_singleton] at hl
        have h1 : sep.length = 1 := by omega
        rw [h1] at hp
        simp only [List.take_succ_cons, List.take_zero] at hp
        rw [← hp, ← hdrop]
        exact List.drop_suffix i s
      have hfuel : ∃ f, fuel = f + 1 := ⟨fuel - 1, by omega⟩
      obtain ⟨f, hf1⟩ := hfuel
      have hs1 : slice s start (i + 1) = some ((s.drop start).take (i + 1 - start)) := by
        simp only [slice]
        rw [if_pos]
        exact ⟨by omega, by omega⟩
      have hexit : ¬ (i + 1 + sep.length < s.length) := by omega
      subst hf1
      have hsnoc := slice_snoc s start i c rest hdrop hsi
      rw [splitLoop, if_pos hi, if_pos hlast, hs1]
      simp only
      rw [splitLoop, if_neg hexit, hdrop, hrnil]
      simp only [standardSplit]
      rw [hrnil] at hnp
      simp only [hnp, Bool.false_eq_true, if_false, standardSplit, hsnoc]
    · -- a byte before the last one
      have hi2 : i + sep.length ≤ s.length := by omega
      have hs2 : slice s i (i + sep.length) = some ((s.drop i).take sep.length) := by
        simp only [slice]
        rw [if_pos ⟨by omega, hi2⟩]
        have e : i + sep.length - i = sep.length := by omega
        rw [e]
      have hs3 : slice s start i = some ((s.drop start).take (i - start)) := by
        simp only [slice]
        rw [if_pos ⟨hsi, by omega⟩]
      rw [splitLoop, if_pos hi, if_neg hlast, hs2]
      simp only
      by_cases hmatch : (s.drop i).take sep.length = sep
      · -- an occurrence of the separator starts here
        have hp : sep.isPrefixOf (c :: rest) = true := by
          rw [isPrefixOf_iff_take, ← hdrop]; exact hmatch
        have hnext : i + sep.length < s.length := by
          by_contra hge
          apply hend
          have hlen : (s.drop i).length = sep.length := by
            rw [List.length_drop]; omega
          have hall : (s.drop i).take sep.length = s.drop i := by
            apply List.take_of_length_le; omega
          rw [hall] at hmatch
          rw [← hmatch]
          exact List.drop_suffix i s
        rw [if_pos hmatch, hs3]
        simp only
        rw [ih (i + sep.length) (i + sep.length) (result ++ [(s.drop start).take (i - start)])
          (le_refl _) hnext (by omega)]
        have e : i + 1 + (sep.length - 1) = i + sep.length := by omega
        have hskip : standardSplit sep (sep.length - 1) rest []
            = standardSplit sep 0 (s.drop (i + sep.length)) [] := by
          rw [standardSplit_skip sep (sep.length - 1) rest [], hrest, List.drop_drop, e]
        rw [hdrop]
        simp only [standardSplit, hp, if_true, Nat.sub_self, List.take_zero, hskip,
          List.append_assoc, List.singleton_append]
      · -- no occurrence here
        have hp : sep.isPrefixOf (c :: rest) = false := by
          rw [Bool.eq_false_iff]
          intro h
          rw [isPrefixOf_iff_take, ← hdrop] at h
          exact hmatch h
        have hsnoc := slice_snoc s start i c rest hdrop hsi
        rw [if_neg hmatch]
        rw [ih (i + 1) start result (by omega) (by omega) (by omega)]
        rw [hdrop, ← hrest]
        simp only [standardSplit, hp, Bool.false_eq_true, if_false, hsnoc]

theorem SplitString_of_scan {α : Type} [DecidableEq α] (s sep : List α) (hs : s ≠ [])
    (hsep : sep.length = 1 ∨ sep.length = 2) (hend : ¬ sep <:+ s) :
    SplitString s sep = SplitOutcome.done (standardSplit sep 0 s []) := by
  have hlen : 0 < s.length := List.length_pos.mpr hs
  have h := splitLoop_eq_standardSplit s sep hsep hend (s.length + 1) 0 0 [] (le_refl _) hlen
    (by omega)
  simpa [SplitString] using h

theorem standardSplit_no_sep {α : Type} [DecidableEq α] (x : α) (l cur : List α)
    (hx : x ∉ l) : standardSplit [x] 0 l cur = [cur ++ l] := by
  induction l generalizing cur with
  | nil => simp [standardSplit]
  | cons c rest ih =>
    have hc : ¬ (x = c) := fun h => hx (h ▸ List.mem_cons_self _ _)
    have hr : x ∉ rest := fun h => hx (List.mem_cons_of_mem _ h)
    simp only [standardSplit, List.isPrefixOf, beq_iff_eq, hc, Bool.and_eq_true,
      false_and, if_false]
    rw [ih (cur ++ [c]) hr]
    simp

theorem standardSplit_at_sep {α : Type} [DecidableEq α] (x : α) (u t cur : List α)
    (hx : x ∉ u) :
    standardSplit [x] 0 (u ++ x :: t) cur = (cur ++ u) :: standardSplit [x] 0 t [] := by
  induction u generalizing cur with
  | nil => simp [standardSplit, List.isPrefixOf]
  | cons c rest ih =>
    have hc : ¬ (x = c) := fun h => hx (h ▸ List.mem_cons_self _ _)
    have hr : x ∉ rest := fun h => hx (List.mem_cons_of_mem _ h)
    simp only [List.cons_append, standardSplit, List.isPrefixOf, beq_iff_eq, hc,
      Bool.and_eq_true, false_and, if_false]
    show standardSplit [x] 0 (rest ++ x :: t) (cur ++ [c]) = _
    rw [ih (cur ++ [c]) hr]
    simp

/-! ## SplitString: claims -/

/-- C27: for every non-empty `s` and every separator of one or two bytes that `s` does
not end with, `SplitString` returns the reference split of `s`: the substrings between
successive non-overlapping occurrences of the separator, found from left to right.
The four examples of the claim are evaluated, and `SplitString` of the empty string
returns no parts. -/
theorem SplitString_eq_standardSplit {α : Type} [DecidableEq α] (s sep : List α)
    (hs : s ≠ []) (hsep : sep.length = 1 ∨ sep.length = 2) (hend : ¬ sep <:+ s) :
    SplitString s sep = SplitOutcome.done (standardSplit sep 0 s [])
      ∧ SplitString "a:b:c".data ":".data = SplitOutcome.done ["a".data, "b".data, "c".data]
      ∧ SplitString ":a:b:c".data ":".data
          = SplitOutcome.done ["".data, "a".data, "b".data, "c".data]
      ∧ SplitString "abc".data ":".data = SplitOutcome.done ["abc".data]
      ∧ SplitString "a::b::c".data "::".data
          = SplitOutcome.done ["a".data, "b".data, "c".data]
      ∧ ∀ anySep : List α, SplitString ([] : List α) anySep = SplitOutcome.done [] := by
  refine ⟨SplitString_of_scan s sep hs hsep hend, by decide, by decide, by decide, by decide, ?_⟩
  intro anySep
  simp [SplitString, splitLoop]

theorem SplitString_eq_standardSplit_witness :
    "a:::b".data ≠ [] ∧ ("::".data.length = 1 ∨ "::".data.length = 2)
      ∧ ¬ ("::".data <:+ "a:::b".data)
      ∧ SplitString "a:::b".data "::".data
          = SplitOutcome.done (standardSplit "::".data 0 "a:::b".data [])
      ∧ standardSplit "::".data 0 "a:::b".data [] = ["a".data, ":b".data] :=
  ⟨by decide, by decide, by decide,
    (SplitString_eq_standardSplit "a:::b".data "::".data (by decide) (by decide)
      (by decide)).1,
    by decide⟩

/-- C29 at its failing input: `SplitString("abc", ":::")` panics.  At `i = 1`, which is
not the last index, the loop evaluates `s[1:4]` on a string of three bytes. -/
theorem SplitString_slices_out_of_range :
    SplitString "abc".data ":::".data = SplitOutcome.panic
      ∧ slice "abc".data 1 (1 + ":::".data.length) = none := by
  decide

/-! ## The auth cookie: claims -/

/-- The cookie value as `SetAuthCookie` builds it, read by `GetUserID` byte for byte.
For a user id without a colon, the signature being a non-empty string without a colon,
`SplitString` cuts the value into exactly the user id and its signature, which
`isValidSignature` accepts, so `GetUserID` on that value returns the user id; a cookie
value without a colon, and a value whose second part is not the signature of the first,
give the empty string. -/
theorem GetUserID_of_cookie_value (generateSignature : String → String) (userID : String)
    (hsig : ∀ d, (generateSignature d).data ≠ [] ∧ ':' ∉ (generateSignature d).data)
    (hid : ':' ∉ userID.data) :
    SplitString (authCookieValue generateSignature userID).data ":".data
        = SplitOutcome.done [userID.data, (generateSignature userID).data]
      ∧ isValidSignature generateSignature userID (generateSignature userID) = true
      ∧ GetUserID generateSignature (some (authCookieValue generateSignature userID))
          = some userID
      ∧ (∀ value : String, ':' ∉ value.data →
          GetUserID generateSignature (some value) = some "")
      ∧ (∀ (value : String) (a b : List Char),
          SplitString value.data ":".data = SplitOutcome.done [a, b] →
          generateSignature (String.mk a) ≠ String.mk b →
          GetUserID generateSignature (some value) = some "") := by
  have hcolon : ":".data = [':'] := rfl
  have hval : (authCookieValue generateSignature userID).data
      = userID.data ++ ':' :: (generateSignature userID).data := by
    simp [authCookieValue, String.data_append]
  have hsplit : SplitString (authCookieValue generateSignature userID).data ":".data
      = SplitOutcome.done [userID.data, (generateSignature userID).data] := by
    rw [hcolon, hval]
    have hne : userID.data ++ ':' :: (generateSignature userID).data ≠ [] := by simp
    have hend : ¬ ([':'] <:+ userID.data ++ ':' :: (generateSignature userID).data) := by
      intro h
      obtain ⟨t, ht⟩ := h
      have hrev := congrArg List.reverse ht
      simp only [List.reverse_append, List.reverse_cons, List.reverse_nil, List.nil_append,
        List.singleton_append, List.append_assoc] at hrev
      cases hg : (generateSignature userID).data.reverse with
      | nil =>
        have := (hsig userID).1
        simp only [List.reverse_eq_nil_iff] at hg
        exact this hg
      | cons x xs =>
        rw [hg] at hrev
        simp only [List.cons_append, List.cons.injEq] at hrev
        have hx : x ∈ (generateSignature userID).data := by
          rw [← List.mem_reverse, hg]; exact List.mem_cons_self _ _
        rw [← hrev.1] at hx
        exact (hsig userID).2 hx
    rw [SplitString_of_scan _ [':'] hne (Or.inl rfl) hend, standardSplit_at_sep _ _ _ _ hid,
      standardSplit_no_sep _ _ _ (hsig userID).2]
    simp
  refine ⟨hsplit, by simp [isValidSignature], ?_, ?_, ?_⟩
  · simp only [GetUserID, hsplit, isValidSignature]
    simp
  · intro value hv
    by_cases hnil : value.data = []
    · have h0 : SplitString value.data ":".data = SplitOutcome.done [] := by
        rw [hnil]; rfl
      simp only [GetUserID, h0]
    · have hend : ¬ ([':'] <:+ value.data) := by
        intro h
        exact hv (h.subset (List.mem_singleton_self _))
      have h1 : SplitString value.data ":".data = SplitOutcome.done [value.data] := by
        rw [hcolon, SplitString_of_scan _ [':'] hnil (Or.inl rfl) hend,
          standardSplit_no_sep _ _ _ hv]
        simp
      simp only [GetUserID, h1]
  · intro value a b hab hbad
    simp only [GetUserID, hab, isValidSignature]
    simp [hbad]

/-- What `parseCookieValue` reads back from a sanitised value is the value without its
bytes that are not valid. -/
theorem parseCookieValue_sanitizeCookieValue (v : String) :
    parseCookieValue (sanitizeCookieValue v)
      = some (String.mk (v.data.filter validCookieValueByte)) := by
  have hall : (v.data.filter validCookieValueByte).all validCookieValueByte = true := by
    simp [List.all_eq_true]
  have hq : validCookieValueByte (Char.ofNat 34) = false := by decide
  unfold sanitizeCookieValue
  by_cases hnil : v.data.filter validCookieValueByte = []
  · simp only [hnil, if_true]
    simp [parseCookieValue]
  · simp only [hnil, if_false]
    by_cases hsp : (v.data.filter validCookieValueByte).any (fun c => c == ' ' || c == ',')
        = true
    · simp only [hsp, if_true]
      unfold parseCookieValue
      have h1 : 1 < (Char.ofNat 34 :: List.filter validCookieValueByte v.data
          ++ [Char.ofNat 34]).length := by simp
      have h2 : (Char.ofNat 34 :: List.filter validCookieValueByte v.data
          ++ [Char.ofNat 34]).head? = some (Char.ofNat 34) := rfl
      have h3 : (Char.ofNat 34 :: List.filter validCookieValueByte v.data
          ++ [Char.ofNat 34]).getLast? = some (Char.ofNat 34) := by
        have h := @List.getLast?_concat _ (Char.ofNat 34)
          (Char.ofNat 34 :: List.filter validCookieValueByte v.data)
        simpa using h
      have h4 : (Char.ofNat 34 :: List.filter validCookieValueByte v.data
          ++ [Char.ofNat 34]).tail.dropLast = List.filter validCookieValueByte v.data := by
        simp
      simp only [h1, h2, h3, h4, and_self, if_true, hall]
    · simp only [hsp, Bool.false_eq_true, if_false]
      unfold parseCookieValue
      have h2 : (List.filter validCookieValueByte v.data).head? ≠ some (Char.ofNat 34) := by
        intro h
        have hm := List.mem_of_mem_head? h
        have hv := (List.mem_filter.mp hm).2
        rw [hq] at hv
        exact Bool.noConfusion hv
      simp only [h2, false_and, and_false, if_false, hall, if_true]

/-- C26 does not hold as stated: for the user id `a;b`, which has no colon,
`http.SetCookie` drops the semicolon, so the cookie that `SetAuthCookie` sets carries
`ab:` and the signature of `a;b`; read back, its first part is `ab`, whose signature is
another one, and `GetUserID` returns the empty string, not the user id. -/
theorem auth_cookie_drops_semicolon :
    ':' ∉ ("a;b" : String).data
      ∧ lengthSignature "a;b" = "aaaa"
      ∧ SetAuthCookie lengthSignature "a;b" = "ab:aaaa"
      ∧ parseCookieValue (SetAuthCookie lengthSignature "a;b") = some "ab:aaaa"
      ∧ GetUserID lengthSignature (parseCookieValue (SetAuthCookie lengthSignature "a;b"))
          = some "" := by
  decide

/-- C26, amended: the auth cookie round-trips for user ids made of bytes that may stand
in a cookie value.  For a user id without a colon (the empty one included) whose bytes
are all valid cookie-value bytes, the signature being a non-empty string of such bytes
without a colon (64 hexadecimal digits in the source), `SplitString` cuts the value that
`SetAuthCookie` builds into exactly the user id and its signature, which
`isValidSignature` accepts; the cookie set through `http.SetCookie` is read back with
that same value, so `GetUserID` on that cookie returns the user id; a cookie value
without a colon, and a value whose second part is not the signature of the first, give
the empty string. -/
theorem auth_cookie_round_trip_valid_bytes (generateSignature : String → String)
    (userID : String)
    (hsig : ∀ d, (generateSignature d).data ≠ [] ∧ ':' ∉ (generateSignature d).data
      ∧ ∀ c ∈ (generateSignature d).data, validCookieValueByte c = true)
    (hid : ':' ∉ userID.data)
    (hvalid : ∀ c ∈ userID.data, validCookieValueByte c = true) :
    SplitString (authCookieValue generateSignature userID).data ":".data
        = SplitOutcome.done [userID.data, (generateSignature userID).data]
      ∧ isValidSignature generateSignature userID (generateSignature userID) = true
      ∧ parseCookieValue (SetAuthCookie generateSignature userID)
          = some (authCookieValue generateSignature userID)
      ∧ GetUserID generateSignature (parseCookieValue (SetAuthCookie generateSignature userID))
          = some userID
      ∧ (∀ value : String, ':' ∉ value.data →
          GetUserID generateSignature (some value) = some "")
      ∧ (∀ (value : String) (a b : List Char),
          SplitString value.data ":".data = SplitOutcome.done [a, b] →
          generateSignature (String.mk a) ≠ String.mk b →
          GetUserID generateSignature (some value) = some "") := by
  have h := GetUserID_of_cookie_value generateSignature userID
    (fun d => ⟨(hsig d).1, (hsig d).2.1⟩) hid
  have hcolon : validCookieValueByte ':' = true := by decide
  have hdata : (authCookieValue generateSignature userID).data
      = userID.data ++ ':' :: (generateSignature userID).data := by
    simp [authCookieValue, String.data_append]
  have hfilter : (authCookieValue generateSignature userID).data.filter validCookieValueByte
      = (authCookieValue generateSignature userID).data := by
    rw [List.filter_eq_self, hdata]
    intro c hc
    rcases List.mem_append.mp hc with hc | hc
    · exact hvalid c hc
    · rcases List.mem_cons.mp hc with hc | hc
      · rw [hc]; exact hcolon
      · exact (hsig userID).2.2 c hc
  have hread : parseCookieValue (SetAuthCookie generateSignature userID)
      = some (authCookieValue generateSignature userID) := by
    unfold SetAuthCookie
    rw [parseCookieValue_sanitizeCookieValue, hfilter]
  refine ⟨h.1, h.2.1, hread, ?_, h.2.2.2.1, h.2.2.2.2⟩
  rw [hread]
  exact h.2.2.1

theorem auth_cookie_round_trip_valid_bytes_witness :
    (∀ d : String, (sampleSignature d).data ≠ [] ∧ ':' ∉ (sampleSignature d).data
        ∧ ∀ c ∈ (sampleSignature d).data, validCookieValueByte c = true)
      ∧ ':' ∉ ("123" : String).data
      ∧ (∀ c ∈ ("123" : String).data, validCookieValueByte c = true)
      ∧ SplitString (authCookieValue sampleSignature "123").data ":".data
          = SplitOutcome.done ["123".data, (sampleSignature "123").data]
      ∧ GetUserID sampleSignature (parseCookieValue (SetAuthCookie sampleSignature "123"))
          = some "123"
      ∧ GetUserID sampleSignature (some "invalid-cookie") = some "" := by
  have hsig : ∀ d : String, (sampleSignature d).data ≠ [] ∧ ':' ∉ (sampleSignature d).data
      ∧ ∀ c ∈ (sampleSignature d).data, validCookieValueByte c = true :=
    fun _ =>
      ⟨(by decide : ("5f70bf18a086007016e948b04aed3b82103a36bea41755b6cddfaf10ace3c6ef" :
          String).data ≠ []),
        (by decide : ':' ∉ ("5f70bf18a086007016e948b04aed3b82103a36bea41755b6cddfaf10ace3c6ef" :
          String).data),
        (by decide : ∀ c ∈ ("5f70bf18a086007016e948b04aed3b82103a36bea41755b6cddfaf10ace3c6ef" :
          String).data, validCookieValueByte c = true)⟩
  have h := auth_cookie_round_trip_valid_bytes sampleSignature "123" hsig (by decide)
    (by decide)
  exact ⟨hsig, by decide, by decide, h.1, h.2.2.2.1, h.2.2.2.2.1 "invalid-cookie" (by decide)⟩

/-! ## OrderProcessor.processOrders: a poll whose store calls succeed -/

theorem mem_setPending_cases (l : List (String × Int)) (k : String) (t : Int)
    (e : String × Int) (he : e ∈ setPending l k t) : e ∈ l ∨ e = (k, t) := by
  induction l with
  | nil =>
    simp only [setPending, List.mem_singleton] at he
    exact Or.inr he
  | cons x rest ih =>
    obtain ⟨k1, t1⟩ := x
    by_cases h : k1 = k
    · simp only [setPending, h, if_true, List.mem_cons] at he
      rcases he with h1 | h1
      · exact Or.inr h1
      · exact Or.inl (List.mem_cons_of_mem _ h1)
    · simp only [setPending, h, if_false, List.mem_cons] at he
      rcases he with h1 | h1
      · exact Or.inl (h1 ▸ List.mem_cons_self _ _)
      · rcases ih h1 with h2 | h2
        · exact Or.inl (List.mem_cons_of_mem _ h2)
        · exact Or.inr h2

theorem not_mem_deletePending (l : List (String × Int)) (k : String) (t : Int) :
    (k, t) ∉ deletePending l k := by
  simp [deletePending, List.mem_filter]

theorem mem_of_mem_deletePending (l : List (String × Int)) (k : String) (e : String × Int)
    (he : e ∈ deletePending l k) : e ∈ l := by
  simp only [deletePending, List.mem_filter] at he
  exact he.1

theorem pollOne_absent_other (env : Nat → PollEnv) (p : Processor) (m n : String)
    (lastCheck : Int) (hne : m ≠ n) (habs : ∀ t, (n, t) ∉ p.pending) :
    ∀ t, (n, t) ∉ (pollOne env p m lastCheck).pending := by
  intro t hmem
  rcases pollOne_pending_cases env p m lastCheck with h | h | ⟨t1, h⟩
  · rw [h] at hmem; exact habs t hmem
  · rw [h] at hmem; exact habs t (mem_of_mem_deletePending _ _ _ hmem)
  · rw [h] at hmem
    rcases mem_setPending_cases _ _ _ _ hmem with h1 | h1
    · exact habs t h1
    · exact hne (congrArg Prod.fst h1).symm

theorem foldl_pollOne_absent_other (env : Nat → PollEnv) (entries : List (String × Int))
    (q : Processor) (n : String) (hne : ∀ e ∈ entries, e.1 ≠ n)
    (habs : ∀ t, (n, t) ∉ q.pending) :
    ∀ t, (n, t) ∉ (entries.foldl (fun s e => pollOne env s e.1 e.2) q).pending := by
  induction entries generalizing q with
  | nil => exact habs
  | cons x rest ih =>
    simp only [List.foldl_cons]
    apply ih
    · intro e he; exact hne e (List.mem_cons_of_mem _ he)
    · exact pollOne_absent_other env q x.1 n x.2 (hne x (List.mem_cons_self _ _)) habs

/-- When `checkOrder` returns nil for a response, it has not panicked and the stored
order carries the status and the reward of the response. -/
theorem checkOrder_nil_stored (db : DB) (n : String) (a : AccrualResponse) (fs : CheckFaults)
    (hok : (checkOrder db n (Except.ok (some a)) fs).err = none) :
    (checkOrder db n (Except.ok (some a)) fs).panicked = false
      ∧ ∃ o, selectOrder db n = some o
        ∧ selectOrder (checkOrder db n (Except.ok (some a)) fs).db n
            = some (Order.mk o.Number o.UserID a.Status
                (if a.Accrual > 0 then some a.Accrual else none)) := by
  have hstat : ∀ o, selectOrder db n = some o →
      selectOrder
        { db with
          orders := db.orders.map
            (setStatus n a.Status (if a.Accrual > 0 then some a.Accrual else none)) } n
        = some (Order.mk o.Number o.UserID a.Status
            (if a.Accrual > 0 then some a.Accrual else none)) := by
    intro o ho
    have hnum : o.Number = n := by
      unfold selectOrder at ho
      have h1 := List.find?_some ho
      simpa using h1
    rw [selectOrder_setStatus, ho]
    simp [setStatus, hnum]
  rcases checkOrder_response db n a fs with
    ⟨err, _, hres⟩ | ⟨o, ho, hupd, ⟨_, hres⟩ | ⟨_, _, hres⟩ | ⟨_, _, hres⟩⟩
  · rw [hres] at hok; simp at hok
  · refine ⟨by rw [hres], o, ho, ?_⟩
    rw [hres, hupd]; exact hstat o ho
  · rw [hres] at hok; simp at hok
  · refine ⟨by rw [hres], o, ho, ?_⟩
    rw [hres]
    simp only
    have hord := UpdateBalance_orders
      (UpdateOrderStatus db n a.Status a.Accrual fs.updateOrderStatus).2 o.UserID a.Accrual
      fs.updateBalance
    unfold selectOrder
    rw [hord, hupd]
    exact hstat o ho

/-- The loop body on a due order whose settlement response is `a`, when `checkOrder`
returns nil and the `GetOrder` call of `processOrders` succeeds. -/
theorem pollOne_settled (env : Nat → PollEnv) (q : Processor) (n : String) (lastCheck : Int)
    (a : AccrualResponse) (hc : q.crashed = false) (hdue : 5 * second ≤ q.now - lastCheck)
    (hs : (env q.polls).settlement = Except.ok (some a))
    (hok : (checkOrder q.db n (Except.ok (some a)) (env q.polls).faults).err = none)
    (hg : failsAt (env q.polls).tickGetOrder 0 = false) :
    (selectOrder (pollOne env q n lastCheck).db n).map (fun o => o.Status) = some a.Status
      ∧ ((a.Status = StatusProcessed ∨ a.Status = StatusInvalid) →
          (pollOne env q n lastCheck).pending = deletePending q.pending n)
      ∧ (¬ (a.Status = StatusProcessed ∨ a.Status = StatusInvalid) →
          (pollOne env q n lastCheck).pending
            = setPending q.pending n (q.now + (env q.polls).took)) := by
  have hd : ¬ (q.now - lastCheck < 5 * second) := not_lt.mpr hdue
  obtain ⟨hpan, o, _, hsel⟩ := checkOrder_nil_stored q.db n a (env q.polls).faults hok
  refine ⟨?_, ?_, ?_⟩
  · by_cases ht : a.Status = StatusProcessed ∨ a.Status = StatusInvalid
    · simp only [pollOne, hc, hd, hs, hpan, hok, GetOrder, hg, hsel, ht, Bool.false_eq_true,
        if_false, if_true, Option.map_some']
    · simp only [pollOne, hc, hd, hs, hpan, hok, GetOrder, hg, hsel, ht, Bool.false_eq_true,
        if_false, Option.map_some']
  · intro ht
    simp only [pollOne, hc, hd, hs, hpan, hok, GetOrder, hg, hsel, ht, Bool.false_eq_true,
      if_false, if_true]
  · intro ht
    simp only [pollOne, hc, hd, hs, hpan, hok, GetOrder, hg, hsel, ht, Bool.false_eq_true,
      if_false]

theorem tick_settled_aux (env : Nat → PollEnv) (p : Processor)
    (before after : List (String × Int)) (n : String) (lastCheck : Int) (a : AccrualResponse)
    (q : Processor) (hq : before.foldl (fun s e => pollOne env s e.1 e.2) p = q)
    (hpending : p.pending = before ++ (n, lastCheck) :: after)
    (hafter : ∀ e ∈ after, e.1 ≠ n)
    (hc : q.crashed = false) (hdue : 5 * second ≤ q.now - lastCheck)
    (hs : (env q.polls).settlement = Except.ok (some a))
    (hok : (checkOrder q.db n (Except.ok (some a)) (env q.polls).faults).err = none)
    (hg : failsAt (env q.polls).tickGetOrder 0 = false) :
    (selectOrder (tick env p).db n).map (fun o => o.Status) = some a.Status
      ∧ ((a.Status = StatusProcessed ∨ a.Status = StatusInvalid) →
          ∀ t, (n, t) ∉ (tick env p).pending)
      ∧ ((a.Status = "REGISTERED" ∨ a.Status = StatusProcessing) →
          (n, q.now + (env q.polls).took) ∈ (tick env p).pending) := by
  obtain ⟨hstat, hterm, hnonterm⟩ := pollOne_settled env q n lastCheck a hc hdue hs hok hg
  have hlen : ¬ (p.pending.length = 0) := by
    rw [hpending]; simp
  have htick : tick env p
      = after.foldl (fun s e => pollOne env s e.1 e.2) (pollOne env q n lastCheck) := by
    simp only [tick, hlen, if_false]
    rw [hpending, List.foldl_append, List.foldl_cons, hq]
  refine ⟨?_, ?_, ?_⟩
  · rw [htick, foldl_pollOne_selectOrder_other env after _ n hafter]
    exact hstat
  · intro ht
    rw [htick]
    apply foldl_pollOne_absent_other env after _ n hafter
    intro t
    rw [hterm ht]
    exact not_mem_deletePending _ _ _
  · intro hn
    have hnt : ¬ (a.Status = StatusProcessed ∨ a.Status = StatusInvalid) := by
      rcases hn with h | h <;> rw [h] <;> decide
    rw [htick]
    apply foldl_pollOne_mem_other
    · rw [hnonterm hnt]
      exact mem_setPending _ _ _
    · intro x hx
      exact hafter x hx

/-- C21: a tick reaches an order that is due and polls it, the settlement response is
`a`, and every store call succeeds (`checkOrder` returns nil and so does the `GetOrder`
call of the loop).  At the end of the tick the stored status is the status of the
response; for PROCESSED and INVALID the order is in `pending` no more; for REGISTERED
and PROCESSING it is in `pending` with the clock reading taken right after the poll. -/
theorem tick_settled_or_tracked (env : Nat → PollEnv) (p : Processor)
    (before after : List (String × Int)) (n : String) (lastCheck : Int) (a : AccrualResponse)
    (hpending : p.pending = before ++ (n, lastCheck) :: after)
    (hafter : ∀ e ∈ after, e.1 ≠ n)
    (hc : (before.foldl (fun s e => pollOne env s e.1 e.2) p).crashed = false)
    (hdue : 5 * second ≤ (before.foldl (fun s e => pollOne env s e.1 e.2) p).now - lastCheck)
    (hs : (env (before.foldl (fun s e => pollOne env s e.1 e.2) p).polls).settlement
      = Except.ok (some a))
    (hok : (checkOrder (before.foldl (fun s e => pollOne env s e.1 e.2) p).db n
        (Except.ok (some a))
        (env (before.foldl (fun s e => pollOne env s e.1 e.2) p).polls).faults).err = none)
    (hg : failsAt (env (before.foldl (fun s e => pollOne env s e.1 e.2) p).polls).tickGetOrder 0
      = false) :
    (selectOrder (tick env p).db n).map (fun o => o.Status) = some a.Status
      ∧ ((a.Status = StatusProcessed ∨ a.Status = StatusInvalid) →
          ∀ t, (n, t) ∉ (tick env p).pending)
      ∧ ((a.Status = "REGISTERED" ∨ a.Status = StatusProcessing) →
          (n, (before.foldl (fun s e => pollOne env s e.1 e.2) p).now
              + (env (before.foldl (fun s e => pollOne env s e.1 e.2) p).polls).took)
            ∈ (tick env p).pending) := by
  exact tick_settled_aux env p before after n lastCheck a _ rfl hpending hafter hc hdue hs hok
    hg

theorem tick_settled_or_tracked_witness :
    (selectOrder (tick doubleCreditEnv
          (Processor.mk sampleDB [] [("4561261212345467", 0)] 5000000000 1 [] false false)).db
        "4561261212345467").map (fun o => o.Status) = some StatusProcessed
      ∧ (∀ t, ("4561261212345467", t) ∉ (tick doubleCreditEnv
          (Processor.mk sampleDB [] [("4561261212345467", 0)] 5000000000 1 [] false false)).pending)
      ∧ ("4561261212345467", (5000000000 : Int)) ∈ (tick processingEnv
          (Processor.mk sampleDB [] [("4561261212345467", 0)] 5000000000 0 [] false
            false)).pending := by
  have h1 := tick_settled_or_tracked doubleCreditEnv
    (Processor.mk sampleDB [] [("4561261212345467", 0)] 5000000000 1 [] false false)
    [] [] "4561261212345467" 0 processedResponse rfl (by intro e he; cases he) rfl
    (by decide) rfl (by decide!) (by decide)
  have h2 := tick_settled_or_tracked processingEnv
    (Processor.mk sampleDB [] [("4561261212345467", 0)] 5000000000 0 [] false false)
    [] [] "4561261212345467" 0 (AccrualResponse.mk "4561261212345467" StatusProcessing 0) rfl
    (by intro e he; cases he) rfl (by decide) rfl (by decide!) (by decide)
  refine ⟨h1.1, h1.2.1 (Or.inl rfl), ?_⟩
  have h3 := h2.2.2 (Or.inr rfl)
  simpa [processingEnv] using h3

/-! ## OrderProcessor.processOrders: orders outside the working set -/

theorem checkOrder_calls_no_accrual (db : DB) (m : String) (settlement : Settlement)
    (fs : CheckFaults) (k : String) (t : Int) :
    StoreCall.GetOrderAccrual k t ∉ (checkOrder db m settlement fs).calls := by
  cases settlement with
  | error err => simp [checkOrder]
  | ok resp =>
    cases resp with
    | none => simp [checkOrder]
    | some a =>
      rcases checkOrder_response db m a fs with
        ⟨err, _, hres⟩ | ⟨o, _, _, ⟨_, hres⟩ | ⟨_, _, hres⟩ | ⟨_, _, hres⟩⟩ <;>
      · rw [hres]; simp

theorem pollOne_ordersChan (env : Nat → PollEnv) (p : Processor) (m : String)
    (lastCheck : Int) : (pollOne env p m lastCheck).ordersChan = p.ordersChan := by
  unfold pollOne
  by_cases hc : p.crashed = true
  · simp [hc]
  by_cases hd : p.now - lastCheck < 5 * second
  · simp [hc, hd]
  simp only [hc, hd, Bool.false_eq_true, if_false]
  by_cases hp : (checkOrder p.db m (env p.polls).settlement (env p.polls).faults).panicked
      = true
  · simp [hp]
  simp only [hp, Bool.false_eq_true, if_false]
  cases he : (checkOrder p.db m (env p.polls).settlement (env p.polls).faults).err with
  | some e => cases e <;> rfl
  | none =>
    simp only
    cases hg : GetOrder (checkOrder p.db m (env p.polls).settlement (env p.polls).faults).db m
        (env p.polls).tickGetOrder with
    | error e => rfl
    | ok r =>
      cases r with
      | none => rfl
      | some order =>
        simp only
        split_ifs <;> rfl

/-- The accrual calls in the log after one pass of the loop body are those of before
and calls for the visited order. -/
theorem pollOne_log_accrual (env : Nat → PollEnv) (p : Processor) (m : String)
    (lastCheck : Int) (k : String) (t : Int)
    (h : StoreCall.GetOrderAccrual k t ∈ (pollOne env p m lastCheck).log) :
    StoreCall.GetOrderAccrual k t ∈ p.log ∨ k = m := by
  have hcalls := checkOrder_calls_no_accrual p.db m (env p.polls).settlement
    (env p.polls).faults k t
  unfold pollOne at h
  by_cases hc : p.crashed = true
  · simp only [hc, if_true] at h; exact Or.inl h
  by_cases hd : p.now - lastCheck < 5 * second
  · simp only [hc, hd, Bool.false_eq_true, if_false, if_true] at h; exact Or.inl h
  simp only [hc, hd, Bool.false_eq_true, if_false] at h
  have hbase : ∀ extra : List StoreCall,
      StoreCall.GetOrderAccrual k t ∉ extra →
      StoreCall.GetOrderAccrual k t
        ∈ (p.log ++ StoreCall.GetOrderAccrual m p.now
            :: (checkOrder p.db m (env p.polls).settlement (env p.polls).faults).calls)
          ++ extra →
      StoreCall.GetOrderAccrual k t ∈ p.log ∨ k = m := by
    intro extra hex hmem
    simp only [List.mem_append, List.mem_cons, StoreCall.GetOrderAccrual.injEq] at hmem
    rcases hmem with (h1 | h1 | h1) | h1
    · exact Or.inl h1
    · exact Or.inr h1.1
    · exact absurd h1 hcalls
    · exact absurd h1 hex
  by_cases hp : (checkOrder p.db m (env p.polls).settlement (env p.polls).faults).panicked
      = true
  · simp only [hp, if_true] at h
    exact hbase [] (by simp) (by simpa using h)
  simp only [hp, Bool.false_eq_true, if_false] at h
  cases he : (checkOrder p.db m (env p.polls).settlement (env p.polls).faults).err with
  | some e =>
    rw [he] at h
    cases e <;> exact hbase [] (by simp) (by simpa using h)
  | none =>
    rw [he] at h
    simp only at h
    cases hg : GetOrder (checkOrder p.db m (env p.polls).settlement (env p.polls).faults).db m
        (env p.polls).tickGetOrder with
    | error e =>
      rw [hg] at h
      exact hbase [StoreCall.GetOrder m true] (by simp) (by simpa using h)
    | ok r =>
      rw [hg] at h
      cases r with
      | none => exact hbase [StoreCall.GetOrder m false] (by simp) (by simpa using h)
      | some order =>
        simp only at h
        split_ifs at h <;>
          exact hbase [StoreCall.GetOrder m false] (by simp) (by simpa using h)

theorem foldl_pollOne_untracked (env : Nat → PollEnv) (n : String) (p0 : Processor)
    (entries : List (String × Int)) (q : Processor) (hne : ∀ e ∈ entries, e.1 ≠ n)
    (hq : untracked n p0 q) :
    untracked n p0 (entries.foldl (fun s e => pollOne env s e.1 e.2) q) := by
  induction entries generalizing q with
  | nil => exact hq
  | cons x rest ih =>
    simp only [List.foldl_cons]
    apply ih
    · intro e he; exact hne e (List.mem_cons_of_mem _ he)
    · have hx : x.1 ≠ n := hne x (List.mem_cons_self _ _)
      obtain ⟨h1, h2, h3, h4⟩ := hq
      refine ⟨?_, ?_, ?_, ?_⟩
      · rw [pollOne_ordersChan]; exact h1
      · exact pollOne_absent_other env q x.1 n x.2 hx h2
      · rw [pollOne_selectOrder_other env q x.1 n x.2 hx]; exact h3
      · intro t ht
        rcases pollOne_log_accrual env q x.1 x.2 n t ht with h | h
        · exact h4 t h
        · exact absurd h.symm hx

theorem step_untracked (env : Nat → PollEnv) (n : String) (p0 p : Processor) (ev : Event)
    (hev : ev ≠ Event.addOrder n) (hp : untracked n p0 p) :
    untracked n p0 (step env p ev) := by
  obtain ⟨h1, h2, h3, h4⟩ := hp
  cases ev with
  | addOrder m =>
    have hm : n ≠ m := fun h => hev (by rw [h])
    simp only [step, AddOrder]
    split_ifs
    · refine ⟨?_, h2, h3, h4⟩
      simp only [List.mem_append, List.mem_singleton, not_or]
      exact ⟨h1, hm⟩
    · exact ⟨h1, h2, h3, h4⟩
  | elapse d => exact ⟨h1, h2, h3, h4⟩
  | recv =>
    simp only [step]
    split_ifs
    · exact ⟨h1, h2, h3, h4⟩
    · cases hq : p.ordersChan with
      | nil => simp only; exact ⟨h1, h2, h3, h4⟩
      | cons m rest =>
        simp only
        rw [hq] at h1
        have hm : n ≠ m := fun h => h1 (h ▸ List.mem_cons_self _ _)
        refine ⟨fun h => h1 (List.mem_cons_of_mem _ h), ?_, h3, h4⟩
        intro t ht
        rcases mem_setPending_cases _ _ _ _ ht with h | h
        · exact h2 t h
        · exact hm (congrArg Prod.fst h)
  | tick =>
    simp only [step]
    split_ifs
    · exact ⟨h1, h2, h3, h4⟩
    · unfold tick
      split_ifs
      · exact ⟨h1, h2, h3, h4⟩
      · apply foldl_pollOne_untracked env n p0 p.pending p _ ⟨h1, h2, h3, h4⟩
        intro e he hen
        exact h2 e.2 (by rw [← hen]; exact he)
  | stop => exact ⟨h1, h2, h3, h4⟩

theorem run_untracked (env : Nat → PollEnv) (n : String) (p0 : Processor)
    (events : List Event) (p : Processor) (hev : Event.addOrder n ∉ events)
    (hp : untracked n p0 p) : untracked n p0 (run env p events) := by
  induction events generalizing p with
  | nil => exact hp
  | cons ev rest ih =>
    simp only [run, List.foldl_cons]
    apply ih
    · intro h; exact hev (List.mem_cons_of_mem _ h)
    · apply step_untracked env n p0 p ev _ hp
      intro h
      exact hev (h ▸ List.mem_cons_self _ _)

/-! ## OrderProcessor.processOrders: recovery of untracked orders -/

/-- C23 does not hold as stated: a processor is started anew over a database whose
order 4561261212345467 is stored with status NEW, and ticks come at five, ten and
seventy seconds.  The working set stays empty, no call is made, and the order keeps
its status. -/
theorem restart_leaves_order_untracked :
    (run processingEnv (NewOrderProcessor sampleDB 0) restartSchedule).pending = []
      ∧ (run processingEnv (NewOrderProcessor sampleDB 0) restartSchedule).log = []
      ∧ (selectOrder (run processingEnv (NewOrderProcessor sampleDB 0) restartSchedule).db
          "4561261212345467").map (fun o => o.Status) = some StatusRegistered := by
  decide!

/-- C23, amended: the loop has no re-scan.  An order that is neither in the intake
queue nor in `pending` stays out of both over every run in which `AddOrder` is not called
for it, whatever its stored status: the accrual client is never called for it and its
stored row does not change. -/
theorem untracked_order_is_never_polled (env : Nat → PollEnv) (p : Processor) (n : String)
    (events : List Event) (hqueue : n ∉ p.ordersChan) (hpending : ∀ t, (n, t) ∉ p.pending)
    (hev : Event.addOrder n ∉ events) :
    n ∉ (run env p events).ordersChan
      ∧ (∀ t, (n, t) ∉ (run env p events).pending)
      ∧ selectOrder (run env p events).db n = selectOrder p.db n
      ∧ ∀ t, StoreCall.GetOrderAccrual n t ∈ (run env p events).log →
          StoreCall.GetOrderAccrual n t ∈ p.log :=
  run_untracked env n p events p hev ⟨hqueue, hpending, rfl, fun _ h => h⟩

theorem untracked_order_is_never_polled_witness :
    "4561261212345467" ∉ (NewOrderProcessor sampleDB 0).ordersChan
      ∧ Event.addOrder "4561261212345467" ∉ restartSchedule
      ∧ (∀ t, ("4561261212345467", t)
          ∉ (run processingEnv (NewOrderProcessor sampleDB 0) restartSchedule).pending)
      ∧ selectOrder (run processingEnv (NewOrderProcessor sampleDB 0) restartSchedule).db
          "4561261212345467" = some sampleOrder := by
  have h := untracked_order_is_never_polled processingEnv (NewOrderProcessor sampleDB 0)
    "4561261212345467" restartSchedule (by decide) (by intro t ht; cases ht) (by decide)
  exact ⟨by decide, by decide, h.2.1, h.2.2.1⟩

end Gophermart
